import Mathlib

/-!
Verification development for the sterm terminal emulator.

This file shallowly embeds the parts of the source relevant to the frozen
claims and settles each claim:

* `src/src/utils/korean_ime.rs` — the Hangul composition engine
  (`KoreanInputState`, `KoreanIME::process_input`,
  `KoreanIME::process_korean_char`, backspace/finalize handling, the jamo
  tables and the syllable composition formula).
* `src/src/terminal/mod.rs` — the scrollback append-and-trim rule used by
  `process_pty_event`, `process_pty_event_sync` and
  `update_session_content_and_get`, and the colored-segment extraction
  loop of `extract_colored_terminal_content`.
* `src/src/utils/color.rs` — the `Color` hex conversion.

Rust `&str`/`String` values that the IME iterates over by `chars()` are
modelled as `List Char` inputs and `String` outputs; byte-oriented buffers
(`String::len`, `drain`, `find('\n')` in the scrollback code, and the hex
parsing in `color.rs`) are modelled as `List Nat` of bytes.  Rust panics
(`unwrap` on `None`) are modelled by returning `none` from an
`Option`-valued function.
-/

namespace Sterm

/-! ## Korean IME: state (korean_ime.rs lines 6-12) -/

/-- Composition state for a single terminal session.
Mirrors `KoreanInputState` of korean_ime.rs. -/
structure KoreanInputState where
  chosung : Option Char
  jungsung : Option Char
  jongsung : Option Char
  is_composing : Bool
deriving DecidableEq, Repr

/-- `KoreanInputState::new` (korean_ime.rs lines 15-22); `reset`
(lines 24-29) produces the same value. -/
def KoreanInputState.new : KoreanInputState :=
  { chosung := none, jungsung := none, jongsung := none, is_composing := false }

/-! ## Jamo tables (korean_ime.rs lines 310-356) -/

/-- The consonant set of `is_consonant` (korean_ime.rs lines 315-320).
The Rust `matches!` over the 19 listed characters is modelled as list
membership. -/
def consonantList : List Char :=
  ['ㄱ', 'ㄲ', 'ㄴ', 'ㄷ', 'ㄸ', 'ㄹ', 'ㅁ', 'ㅂ', 'ㅃ',
   'ㅅ', 'ㅆ', 'ㅇ', 'ㅈ', 'ㅉ', 'ㅊ', 'ㅋ', 'ㅌ', 'ㅍ', 'ㅎ']

/-- The vowel set of `is_vowel` (korean_ime.rs lines 323-328). -/
def vowelList : List Char :=
  ['ㅏ', 'ㅐ', 'ㅑ', 'ㅒ', 'ㅓ', 'ㅔ', 'ㅕ', 'ㅖ', 'ㅗ', 'ㅘ',
   'ㅙ', 'ㅚ', 'ㅛ', 'ㅜ', 'ㅝ', 'ㅞ', 'ㅟ', 'ㅠ', 'ㅡ', 'ㅢ', 'ㅣ']

/-- `is_consonant` (korean_ime.rs lines 315-320). -/
def isConsonant (ch : Char) : Bool := consonantList.contains ch

/-- `is_vowel` (korean_ime.rs lines 323-328). -/
def isVowel (ch : Char) : Bool := vowelList.contains ch

/-- `is_korean_jamo` (korean_ime.rs lines 310-312). -/
def isKoreanJamo (ch : Char) : Bool := isConsonant ch || isVowel ch

/-- The `chosungs` array of `get_chosung_index` (korean_ime.rs
lines 332-335).  It is the same list of characters as `is_consonant`. -/
def chosungList : List Char := consonantList

/-- The `jungsungs` array of `get_jungsung_index` (korean_ime.rs
lines 341-344); same list as `is_vowel`. -/
def jungsungList : List Char := vowelList

/-- The `jongsungs` array of `get_jongsung_index` (korean_ime.rs
lines 350-354); index 0 is the NUL placeholder for "no final". -/
def jongsungList : List Char :=
  ['\x00', 'ㄱ', 'ㄲ', 'ㄳ', 'ㄴ', 'ㄵ', 'ㄶ', 'ㄷ', 'ㄹ', 'ㄺ', 'ㄻ', 'ㄼ',
   'ㄽ', 'ㄾ', 'ㄿ', 'ㅀ', 'ㅁ', 'ㅂ', 'ㅄ', 'ㅅ', 'ㅆ', 'ㅇ', 'ㅈ', 'ㅊ',
   'ㅋ', 'ㅌ', 'ㅍ', 'ㅎ']

/-- `get_chosung_index` (korean_ime.rs lines 331-337):
`iter().position(|&c| c == ch)`. -/
def getChosungIndex (ch : Char) : Option Nat :=
  chosungList.findIdx? (fun c => c == ch)

/-- `get_jungsung_index` (korean_ime.rs lines 340-346). -/
def getJungsungIndex (ch : Char) : Option Nat :=
  jungsungList.findIdx? (fun c => c == ch)

/-- `get_jongsung_index` (korean_ime.rs lines 349-356). -/
def getJongsungIndex (ch : Char) : Option Nat :=
  jongsungList.findIdx? (fun c => c == ch)

/-- Rust `char::from_u32`: `some` exactly on Unicode scalar values. -/
def charFromU32 (n : Nat) : Option Char :=
  if n < 0xD800 ∨ (0xE000 ≤ n ∧ n < 0x110000) then
    some (Char.ofNat n)
  else
    none

/-- `compose_korean` (korean_ime.rs lines 359-362):
`0xAC00 + (chosung_idx * 21 + jungsung_idx) * 28 + jongsung_idx`, with
`char::from_u32(..).unwrap_or('?')`. -/
def composeKorean (chosungIdx jungsungIdx jongsungIdx : Nat) : Char :=
  (charFromU32 (0xAC00 + (chosungIdx * 21 + jungsungIdx) * 28 + jongsungIdx)).getD '?'

/-- `combine_consonants` (korean_ime.rs lines 365-380): the 11 compound
finals.  The Rust `match (first, second)` over character-pair literals is
written as the equivalent chain of pair comparisons. -/
def combineConsonants (first second : Char) : Option Char :=
  if first = 'ㄱ' ∧ second = 'ㅅ' then some 'ㄳ'
  else if first = 'ㄴ' ∧ second = 'ㅈ' then some 'ㄵ'
  else if first = 'ㄴ' ∧ second = 'ㅎ' then some 'ㄶ'
  else if first = 'ㄹ' ∧ second = 'ㄱ' then some 'ㄺ'
  else if first = 'ㄹ' ∧ second = 'ㅁ' then some 'ㄻ'
  else if first = 'ㄹ' ∧ second = 'ㅂ' then some 'ㄼ'
  else if first = 'ㄹ' ∧ second = 'ㅅ' then some 'ㄽ'
  else if first = 'ㄹ' ∧ second = 'ㅌ' then some 'ㄾ'
  else if first = 'ㄹ' ∧ second = 'ㅍ' then some 'ㄿ'
  else if first = 'ㄹ' ∧ second = 'ㅎ' then some 'ㅀ'
  else if first = 'ㅂ' ∧ second = 'ㅅ' then some 'ㅄ'
  else none

/-- `combine_vowels` (korean_ime.rs lines 383-394): the 7 compound
medials, as the equivalent chain of pair comparisons. -/
def combineVowels (first second : Char) : Option Char :=
  if first = 'ㅗ' ∧ second = 'ㅏ' then some 'ㅘ'
  else if first = 'ㅗ' ∧ second = 'ㅐ' then some 'ㅙ'
  else if first = 'ㅗ' ∧ second = 'ㅣ' then some 'ㅚ'
  else if first = 'ㅜ' ∧ second = 'ㅓ' then some 'ㅝ'
  else if first = 'ㅜ' ∧ second = 'ㅔ' then some 'ㅞ'
  else if first = 'ㅜ' ∧ second = 'ㅣ' then some 'ㅟ'
  else if first = 'ㅡ' ∧ second = 'ㅣ' then some 'ㅢ'
  else none

/-! ## Korean IME: state operations (korean_ime.rs lines 31-72) -/

/-- `KoreanInputState::get_current_char` (korean_ime.rs lines 32-44):
`None` unless both the initial consonant has a chosung index and a medial
vowel with a jungsung index is present; the final index defaults to 0. -/
def KoreanInputState.getCurrentChar (s : KoreanInputState) : Option Char :=
  match s.chosung with
  | none => none
  | some cho =>
    match getChosungIndex cho with
    | none => none
    | some choIdx =>
      match s.jungsung.bind getJungsungIndex with
      | none => none
      | some jungIdx =>
        some (composeKorean choIdx jungIdx ((s.jongsung.bind getJongsungIndex).getD 0))

/-- `KoreanInputState::get_display_char` (korean_ime.rs lines 47-59). -/
def KoreanInputState.getDisplayChar (s : KoreanInputState) : Option Char :=
  match s.chosung with
  | none => none
  | some cho =>
    match s.jungsung with
    | some _ => s.getCurrentChar
    | none => some cho

/-- `KoreanInputState::handle_backspace` (korean_ime.rs lines 62-71). -/
def KoreanInputState.handleBackspace (s : KoreanInputState) : KoreanInputState :=
  if s.jongsung.isSome then { s with jongsung := none }
  else if s.jungsung.isSome then { s with jungsung := none }
  else if s.chosung.isSome then { s with chosung := none, is_composing := false }
  else s

/-- Optional char rendered as the string pushed by
`if let Some(c) = ... call result.push(c)` patterns. -/
def pushOpt : Option Char → String
  | some c => String.singleton c
  | none => ""

/-! ## Korean IME: per-character processing (korean_ime.rs lines 237-306)

`KoreanIME::process_korean_char` mutates the session state and returns the
committed text.  The Rust `unwrap()` calls on line 279-280 (reachable when
the initial-consonant slot holds a compound jamo such as 'ㄳ' after a
final-consonant migration) are modelled by the `none` result. -/

/-- `KoreanIME::process_korean_char` (korean_ime.rs lines 237-306).
`none` models the `unwrap()` panic on lines 279-280. -/
def processKoreanChar (s : KoreanInputState) (ch : Char) :
    Option (String × KoreanInputState) :=
  if isConsonant ch then
    if s.chosung.isNone then
      -- first consonant - set as chosung (lines 242-245)
      some ("", { s with chosung := some ch, is_composing := true })
    else if s.jungsung.isSome && s.jongsung.isNone then
      -- have chosung + jungsung, this becomes jongsung (lines 246-248)
      some ("", { s with jongsung := some ch })
    else
      match s.jongsung with
      | some existingJong =>
        -- try to combine with existing jongsung (lines 249-261)
        match combineConsonants existingJong ch with
        | some combined => some ("", { s with jongsung := some combined })
        | none =>
          some (pushOpt s.getCurrentChar,
                { KoreanInputState.new with chosung := some ch, is_composing := true })
      | none =>
        -- already have chosung but no jungsung (lines 262-270)
        some (pushOpt s.getCurrentChar,
              { KoreanInputState.new with chosung := some ch, is_composing := true })
  else if isVowel ch then
    if s.chosung.isSome && s.jungsung.isNone then
      -- have chosung, this becomes jungsung (lines 272-274)
      some ("", { s with jungsung := some ch })
    else
      match s.jungsung with
      | some existingJung =>
        match s.jongsung with
        | some jong =>
          -- have jongsung - move it to a new syllable (lines 277-288)
          match s.chosung with
          | none => none        -- `state.chosung.unwrap()` panics
          | some cho =>
            match getChosungIndex cho with
            | none => none      -- `get_chosung_index(..).unwrap()` panics
            | some choIdx =>
              match getJungsungIndex existingJung with
              | none => none    -- `get_jungsung_index(..).unwrap()` panics
              | some jungIdx =>
                some (String.singleton (composeKorean choIdx jungIdx 0),
                      { KoreanInputState.new with
                          chosung := some jong, jungsung := some ch,
                          is_composing := true })
        | none =>
          -- try to combine with existing jungsung (lines 289-298)
          match combineVowels existingJung ch with
          | some combined => some ("", { s with jungsung := some combined })
          | none =>
            some (pushOpt s.getCurrentChar ++ String.singleton ch,
                  KoreanInputState.new)
      | none =>
        -- no chosung - can't start with vowel (lines 299-302)
        some (String.singleton ch, s)
  else
    -- not a jamo: process_korean_char has no branch for it and commits nothing
    some ("", s)

/-! ## Korean IME: process_input (korean_ime.rs lines 97-212) -/

/-- The macOS arrow-key private-use codepoints (korean_ime.rs line 126). -/
def isMacArrow (ch : Char) : Bool :=
  ch == '\uF700' || ch == '\uF701' || ch == '\uF702' || ch == '\uF703'

/-- ANSI translation of the macOS arrow keys (korean_ime.rs
lines 147-153). -/
def arrowAnsi (ch : Char) : String :=
  if ch = '\uF700' then "\x1bOA"
  else if ch = '\uF701' then "\x1bOB"
  else if ch = '\uF702' then "\x1bOD"
  else "\x1bOC"

/-- Rust `char::is_control`: the Unicode `Cc` category. -/
def rustIsControl (ch : Char) : Bool :=
  ch.toNat < 0x20 || (0x7F ≤ ch.toNat && ch.toNat ≤ 0x9F)

/-- The body of the `for ch in input_text.chars()` loop of
`KoreanIME::process_input` (korean_ime.rs lines 124-200), for one
character: returns the text appended to `result` and the new state. -/
def processInputChar (s : KoreanInputState) (ch : Char) :
    Option (String × KoreanInputState) :=
  if isMacArrow ch then
    if s.is_composing then
      -- lines 127-144: commit (bare consonant if incomplete), swallow arrow
      let isIncomplete := s.chosung.isSome && s.jungsung.isNone
      let out := if isIncomplete then pushOpt s.chosung else pushOpt s.getCurrentChar
      some (out, KoreanInputState.new)
    else
      -- lines 145-156: translate to the ANSI sequence
      some (arrowAnsi ch, s)
  else if isKoreanJamo ch then
    processKoreanChar s ch
  else
    if s.is_composing then
      -- lines 162-194: force-commit, then handle the trigger itself
      let isIncomplete := s.chosung.isSome && s.jungsung.isNone
      let committed := if isIncomplete then pushOpt s.chosung else pushOpt s.getCurrentChar
      let fwd :=
        if ch = '\r' ∨ ch = '\n' then ""            -- Enter: swallowed
        else if ch = '\x1b' then String.singleton ch -- ESC: forwarded
        else if ch = ' ' then String.singleton ch    -- space: forwarded
        else if ¬ rustIsControl ch then String.singleton ch
        else String.singleton ch                     -- control bytes: forwarded
      some (committed ++ fwd, KoreanInputState.new)
    else
      -- lines 195-198
      some (String.singleton ch, s)

/-- The `for` loop of `KoreanIME::process_input` over all input
characters, accumulating `result`. -/
def processInputChars : KoreanInputState → List Char → Option (String × KoreanInputState)
  | s, [] => some ("", s)
  | s, ch :: rest =>
    match processInputChar s ch with
    | none => none
    | some (out, s') =>
      match processInputChars s' rest with
      | none => none
      | some (out2, s'') => some (out ++ out2, s'')

/-- `KoreanIME::process_input` (korean_ime.rs lines 97-212) for one
session's state.  The input `&str` is modelled as its character list;
`input_text.starts_with("\x1b[")` becomes a check on the first two
characters.  Returns `(result, is_composing, current_composition)`
together with the new state; `none` models a panic. -/
def processInput (s : KoreanInputState) (input : List Char) :
    Option (String × Bool × Option Char × KoreanInputState) :=
  if input.take 2 = ['\x1b', '['] then
    -- ANSI escape sequence handling (lines 102-122)
    let p : String × KoreanInputState :=
      if s.is_composing then (pushOpt s.getCurrentChar, KoreanInputState.new)
      else (String.mk input, s)
    some (p.1, p.2.is_composing,
          if p.2.is_composing then p.2.getDisplayChar else none, p.2)
  else
    match processInputChars s input with
    | none => none
    | some (out, s') =>
      some (out, s'.is_composing,
            if s'.is_composing then s'.getDisplayChar else none, s')

/-- `KoreanIME::finalize_composition` (korean_ime.rs lines 215-224) for an
existing session state: returns the pending completed char and the new
state. -/
def finalizeComposition (s : KoreanInputState) : Option Char × KoreanInputState :=
  if s.is_composing then (s.getCurrentChar, KoreanInputState.new) else (none, s)

/-- `KoreanIME::handle_backspace` (korean_ime.rs lines 227-235) for an
existing session state: the Bool is `true` when the backspace was consumed
by the IME. -/
def imeHandleBackspace (s : KoreanInputState) : KoreanInputState × Bool :=
  if s.is_composing then (s.handleBackspace, true) else (s, false)

/-- The session-state invariant of the spec data model: a final consonant
only with a medial vowel, a medial vowel only with an initial consonant,
and the composing flag exactly when the initial slot is occupied. -/
def Inv (s : KoreanInputState) : Prop :=
  (s.jongsung.isSome → s.jungsung.isSome) ∧
  (s.jungsung.isSome → s.chosung.isSome) ∧
  (s.is_composing = true ↔ s.chosung.isSome)

instance (s : KoreanInputState) : Decidable (Inv s) := by
  unfold Inv; infer_instance

/-- Composition states reachable from the freshly created state through
the public IME operations (`process_input`, `handle_backspace`,
`finalize_composition`, `reset`). -/
inductive Reachable : KoreanInputState → Prop where
  | init : Reachable KoreanInputState.new
  | input (s : KoreanInputState) (l : List Char) (out : String) (comp : Bool)
      (prev : Option Char) (s' : KoreanInputState) :
      Reachable s → processInput s l = some (out, comp, prev, s') → Reachable s'
  | backspace (s : KoreanInputState) :
      Reachable s → Reachable (imeHandleBackspace s).1
  | finalize (s : KoreanInputState) :
      Reachable s → Reachable (finalizeComposition s).2
  | reset (s : KoreanInputState) :
      Reachable s → Reachable KoreanInputState.new

/-- Number of occupied jamo slots of a composition state. -/
def occupiedSlots (s : KoreanInputState) : Nat :=
  (if s.chosung.isSome then 1 else 0) +
  (if s.jungsung.isSome then 1 else 0) +
  (if s.jongsung.isSome then 1 else 0)

/-- Runs a jamo sequence through `process_korean_char` one character at a
time, accumulating the committed text (the harness used to state claim C1
about sequences of jamo inputs). -/
def runJamo : KoreanInputState → List Char → Option (String × KoreanInputState)
  | s, [] => some ("", s)
  | s, ch :: rest =>
    match processKoreanChar s ch with
    | none => none
    | some (out, s') =>
      match runJamo s' rest with
      | none => none
      | some (out2, s'') => some (out ++ out2, s'')

/-- Checks that every single step of a jamo sequence commits nothing and
leaves the engine composing (claim C1's "still_composing is true after
each jamo"). -/
def stepwiseComposing : KoreanInputState → List Char → Bool
  | _, [] => true
  | s, ch :: rest =>
    match processKoreanChar s ch with
    | none => false
    | some (out, s') => out == "" && s'.is_composing && stepwiseComposing s' rest

/-- Feeds a sequence through `process_input` one character at a time (as
claim C1 quantifies), accumulating the committed text. -/
def runImeSteps : KoreanInputState → List Char → Option (String × KoreanInputState)
  | s, [] => some ("", s)
  | s, ch :: rest =>
    match processInput s [ch] with
    | none => none
    | some (out, _, _, s') =>
      match runImeSteps s' rest with
      | none => none
      | some (out2, s'') => some (out ++ out2, s'')

/-- Checks that every single `process_input` call of a one-character-at-a-
time feed commits nothing and returns `still_composing = true`. -/
def stepwiseStillComposing : KoreanInputState → List Char → Bool
  | _, [] => true
  | s, ch :: rest =>
    match processInput s [ch] with
    | none => false
    | some (out, comp, _, s') => out == "" && comp && stepwiseStillComposing s' rest

/-- Jamo sequences that form one valid Hangul syllable, together with the
initial/medial/final indices of that syllable: an initial consonant, a
medial vowel optionally extended by a compound-vowel combination, and
optionally a final consonant optionally extended by a compound-final
combination.  This formalises claim C1's "sequence of consonant/vowel
jamo inputs forming a valid Hangul syllable". -/
inductive SyllableSeq : List Char → Nat → Nat → Nat → Prop where
  | cv (c v : Char) (ci ji : Nat)
      (hc : getChosungIndex c = some ci)
      (hv : getJungsungIndex v = some ji) :
      SyllableSeq [c, v] ci ji 0
  | cvv (c v w u : Char) (ci jv ji : Nat)
      (hc : getChosungIndex c = some ci)
      (hv : getJungsungIndex v = some jv)
      (hw : combineVowels v w = some u)
      (hu : getJungsungIndex u = some ji) :
      SyllableSeq [c, v, w] ci ji 0
  | addFinal (l : List Char) (ci ji : Nat) (f : Char) (ki : Nat)
      (h : SyllableSeq l ci ji 0)
      (hf : isConsonant f = true)
      (hk : getJongsungIndex f = some ki) :
      SyllableSeq (l ++ [f]) ci ji ki
  | addCompoundFinal (l : List Char) (ci ji : Nat) (f f2 g : Char) (ki : Nat)
      (h : SyllableSeq l ci ji 0)
      (hf : isConsonant f = true)
      (hf2 : isConsonant f2 = true)
      (hcomb : combineConsonants f f2 = some g)
      (hk : getJongsungIndex g = some ki) :
      SyllableSeq (l ++ [f, f2]) ci ji ki

/-! ## Scrollback buffer (terminal/mod.rs lines 526-627)

The session content buffer is a Rust `String`; `len()`, `find('\n')` and
`drain` are byte-oriented, so the buffer is modelled as a list of bytes
(newline = 10).  The slice `&content_guard[split_pos..]` panics when
`split_pos` (= `len - 40000`) is not a UTF-8 character boundary; that
panic is modelled by the `none` result of `trimContent`.  The `drain`
range never panics once the slice succeeded: its start is 0 and its end
is one past an ASCII newline, both character boundaries. -/

/-- `str::find('\n')`: byte index of the first newline. -/
def findNewline : List Nat → Option Nat
  | [] => none
  | b :: rest =>
    if b = 10 then some 0 else (findNewline rest).map (· + 1)

/-- Rust `str::is_char_boundary` on the byte buffer: position 0 is a
boundary, a position past the end is a boundary only at exactly the
length, and an interior position is a boundary when its byte is not a
UTF-8 continuation byte (`(b as i8) >= -0x40`, i.e. `b < 0x80` or
`b >= 0xC0`). -/
def isCharBoundary (buf : List Nat) (i : Nat) : Bool :=
  if i = 0 then true
  else
    match buf[i]? with
    | none => i = buf.length
    | some b => decide (b < 128) || decide (192 ≤ b)

/-- The scrollback trimming step shared by `process_pty_event`
(terminal/mod.rs lines 537-543), `process_pty_event_sync` (lines 577-584)
and `update_session_content_and_get` (lines 615-621): if the buffer
exceeds 50000 bytes, slice it at `len - 40000` (panicking — `none` — when
that is not a character boundary) and drop the front through the first
newline at or after that point; if no such newline exists, leave the
buffer unchanged. -/
def trimContent (buf : List Nat) : Option (List Nat) :=
  if buf.length > 50000 then
    if isCharBoundary buf (buf.length - 40000) then
      match findNewline (buf.drop (buf.length - 40000)) with
      | some newlinePos => some (buf.drop (buf.length - 40000 + newlinePos + 1))
      | none => some buf
    else none
  else some buf

/-- One content update: `content_guard.push_str(&text)` followed by the
trim (the body shared by all three update paths); `none` is the panic. -/
def updateContent (buf text : List Nat) : Option (List Nat) :=
  trimContent (buf ++ text)

/-- Length of the longest newline-free run in a buffer, continuing a run
of `cur` bytes already seen. -/
def maxLineLenAux : List Nat → Nat → Nat
  | [], cur => cur
  | b :: rest, cur =>
    if b = 10 then max cur (maxLineLenAux rest 0) else maxLineLenAux rest (cur + 1)

/-- Length of the longest newline-free run in a buffer (the longest line,
in bytes); used to state claim C4's "one line's worth of bytes". -/
def maxLineLen (buf : List Nat) : Nat := maxLineLenAux buf 0

/-! ## Terminal manager event processing (terminal/mod.rs lines 496-627) -/

/-- The per-session fields touched by the event paths. -/
structure SessionBuf where
  content : List Nat
  is_running : Bool
deriving DecidableEq, Repr

/-- The manager's `sessions: HashMap<SessionId, TerminalSession>`,
modelled as an association list. -/
def Sessions := List (Nat × SessionBuf)

/-- `self.sessions.get(&session_id)`. -/
def lookupSession : List (Nat × SessionBuf) → Nat → Option SessionBuf
  | [], _ => none
  | (k, v) :: rest, id => if k = id then some v else lookupSession rest id

/-- In-place mutation of the session found under a lock. -/
def setSession : List (Nat × SessionBuf) → Nat → SessionBuf → List (Nat × SessionBuf)
  | [], _, _ => []
  | (k, v) :: rest, id, v' =>
    if k = id then (k, v') :: rest else (k, v) :: setSession rest id v'

/-- The terminal-engine events routed by the manager
(`alacritty_terminal::event::Event` cases the code distinguishes). -/
inductive PtyEvent where
  | ptyWrite (data : List Nat)
  | title
  | exit
  | other
deriving DecidableEq

/-- `TerminalManager::process_pty_event` (terminal/mod.rs lines 526-565),
the asynchronous path.  `lossy` models `String::from_utf8_lossy` applied
to the event bytes; the result's second component is the
`(session_id, content)` handed to the UI callback, `none` when no
notification happens.  The outer `none` is a panic escaping from the
buffer trim's slicing. -/
def processPtyEvent (lossy : List Nat → List Nat) (sessions : List (Nat × SessionBuf))
    (id : Nat) (ev : PtyEvent) :
    Option (List (Nat × SessionBuf) × Option (Nat × List Nat)) :=
  match ev with
  | .ptyWrite data =>
    match lookupSession sessions id with
    | some sess =>
      match updateContent sess.content (lossy data) with
      | some newContent =>
        some (setSession sessions id { sess with content := newContent },
          some (id, newContent))
      | none => none
    | none => some (sessions, none)
  | .title => some (sessions, none)
  | .exit =>
    match lookupSession sessions id with
    | some sess => some (setSession sessions id { sess with is_running := false }, none)
    | none => some (sessions, none)
  | .other => some (sessions, none)

/-- `TerminalManager::process_pty_event_sync` (terminal/mod.rs
lines 567-608), the synchronous best-effort path: identical to the
asynchronous path except that each per-session lock is only tried
(`try_lock`); `contentLockFree` and `runningLockFree` say whether those
acquisitions succeed, and a failed acquisition silently skips the
update. -/
def processPtyEventSync (lossy : List Nat → List Nat)
    (contentLockFree runningLockFree : Bool) (sessions : List (Nat × SessionBuf))
    (id : Nat) (ev : PtyEvent) :
    Option (List (Nat × SessionBuf) × Option (Nat × List Nat)) :=
  match ev with
  | .ptyWrite data =>
    match lookupSession sessions id with
    | some sess =>
      if contentLockFree then
        match updateContent sess.content (lossy data) with
        | some newContent =>
          some (setSession sessions id { sess with content := newContent },
            some (id, newContent))
        | none => none
      else some (sessions, none)
    | none => some (sessions, none)
  | .title => some (sessions, none)
  | .exit =>
    match lookupSession sessions id with
    | some sess =>
      if runningLockFree then
        some (setSession sessions id { sess with is_running := false }, none)
      else some (sessions, none)
    | none => some (sessions, none)
  | .other => some (sessions, none)

/-! ## Color (color.rs lines 4-58) -/

/-- `Color` (color.rs lines 4-10): 8-bit RGBA, each channel a `u8`
modelled as a `Nat` below 256. -/
structure Color where
  r : Nat
  g : Nat
  b : Nat
  a : Nat
deriving DecidableEq, Repr

/-- `Color::rgb` (color.rs lines 17-19). -/
def Color.rgb (r g b : Nat) : Color := ⟨r, g, b, 255⟩

/-- Lowercase hex digit of a value below 16, as the ASCII byte printed by
`format!("{:x}")`. -/
def toHexDigit (n : Nat) : Nat := if n < 10 then 48 + n else 87 + n

/-- The two lowercase hex bytes `format!("{:02x}", v)` prints for a `u8`
value. -/
def toHexByte (v : Nat) : List Nat := [toHexDigit (v / 16), toHexDigit (v % 16)]

/-- `Color::to_hex` (color.rs lines 35-37):
`format!("#{:02x}{:02x}{:02x}", r, g, b)` as its UTF-8 bytes.  The alpha
channel is not printed. -/
def Color.toHex (c : Color) : List Nat :=
  35 :: (toHexByte c.r ++ toHexByte c.g ++ toHexByte c.b)

/-- Value of one ASCII hex digit byte as accepted by
`u8::from_str_radix(_, 16)` (0-9, a-f, A-F). -/
def hexDigitVal (b : Nat) : Option Nat :=
  if 48 ≤ b ∧ b ≤ 57 then some (b - 48)
  else if 97 ≤ b ∧ b ≤ 102 then some (b - 87)
  else if 65 ≤ b ∧ b ≤ 70 then some (b - 55)
  else none

/-- Digit-accumulation part of `u8::from_str_radix(_, 16)`: all bytes must
be hex digits, at least one digit, and the value must fit in a `u8`. -/
def hexDigits (bytes : List Nat) (acc : Nat) : Option Nat :=
  match bytes with
  | [] => some acc
  | b :: rest =>
    match hexDigitVal b with
    | some d => if acc * 16 + d ≤ 255 then hexDigits rest (acc * 16 + d) else none
    | none => none

/-- `u8::from_str_radix(s, 16)` on UTF-8 bytes: an optional leading `+`
(byte 43) or `-` (byte 45) sign followed by at least one hex digit; a
negative value must be 0 to fit in a `u8`. -/
def fromStrRadix16U8 (bytes : List Nat) : Option Nat :=
  match bytes with
  | [] => none
  | b :: rest =>
    if b = 43 then
      if rest = [] then none else hexDigits rest 0
    else if b = 45 then
      if rest = [] then none
      else
        match hexDigits rest 0 with
        | some 0 => some 0
        | _ => none
    else hexDigits (b :: rest) 0

/-- `Color::from_hex` (color.rs lines 21-33) on the input's UTF-8 bytes.
`trim_start_matches('#')` strips every leading `#` (byte 35); then the
remaining content must have byte length exactly 6 and is parsed as three
`u8::from_str_radix(_, 16)` fields; `Self::rgb` sets alpha to 255.
Rust's byte slicing `&hex[0..2]` panics when byte offset 2 or 4 is not a
UTF-8 character boundary; the model returns an error there instead (no
theorem below depends on that region). -/
def Color.fromHex (input : List Nat) : Except Unit Color :=
  let hex := input.dropWhile (fun b => b = 35)
  if hex.length ≠ 6 then .error ()
  else
    match fromStrRadix16U8 (hex.take 2),
          fromStrRadix16U8 ((hex.drop 2).take 2),
          fromStrRadix16U8 ((hex.drop 4).take 2) with
    | some r, some g, some b => .ok (Color.rgb r g b)
    | _, _, _ => .error ()

/-! ## Colored segment extraction (terminal/mod.rs lines 303-445)

The claims quantify over the resolved (foreground, background) colors of
the grid cells, so a cell is modelled with its already-resolved color
pair: the mapping from `indexed.fg`/`indexed.bg` through
`ColorTheme::convert_ansi_color` plus the INVERSE swap and the DIM
scaling (lines 332-347) is the `resolve` boundary of the model (the DIM
scaling multiplies by the `f32` value 0.7, which the claims do not
touch).  The segmentation loop of lines 313-415 is embedded exactly. -/

/-- A grid cell as seen by the extraction loop: display line, character,
the `WIDE_CHAR_SPACER` flag, and the resolved foreground/background
colors. -/
structure RCell where
  line : Nat
  ch : Char
  isSpacer : Bool
  fg : Color
  bg : Color
deriving DecidableEq, Repr

/-- `ColoredTextSegment` (fields as constructed in terminal/mod.rs
lines 353-360). -/
structure ColoredTextSegment where
  text : String
  fg_color : Color
  bg_color : Color
  line : Nat
  start_col : Nat
  end_col : Nat
deriving DecidableEq, Repr

/-- The mutable locals of the extraction loop (terminal/mod.rs
lines 313-319).  The write-only `line_text` variable is omitted. -/
structure ExtractAcc where
  segments : List ColoredTextSegment
  current_line : Nat
  line_segments : List ColoredTextSegment
  current_segment_text : String
  current_fg : Color
  current_bg : Color
  segment_start_col : Nat

/-- `ColorTheme::default().foreground` (dark theme, `#ffffff`). -/
def themeForeground : Color := ⟨255, 255, 255, 255⟩

/-- `ColorTheme::default().background` (dark theme, `#1e1e1e`). -/
def themeBackground : Color := ⟨30, 30, 30, 255⟩

/-- The body of the `for indexed in grid.display_iter()` loop
(terminal/mod.rs lines 321-401) for one cell. -/
def extractStep (acc : ExtractAcc) (cell : RCell) : ExtractAcc :=
  if cell.isSpacer then acc
  else
    -- line change: flush the previous line (lines 349-374)
    let acc :=
      if cell.line ≠ acc.current_line then
        let lineSegs :=
          if acc.current_segment_text ≠ "" then
            acc.line_segments ++
              [{ text := acc.current_segment_text, fg_color := acc.current_fg,
                 bg_color := acc.current_bg, line := acc.current_line,
                 start_col := acc.segment_start_col,
                 end_col := acc.segment_start_col + acc.current_segment_text.length }]
          else acc.line_segments
        { segments := acc.segments ++ lineSegs, current_line := cell.line,
          line_segments := [], current_segment_text := "",
          current_fg := cell.fg, current_bg := cell.bg, segment_start_col := 0 }
      else acc
    -- color change closes the current segment (lines 376-396);
    -- only the r, g, b channels are compared
    let colorsChanged :=
      cell.fg.r ≠ acc.current_fg.r ∨ cell.fg.g ≠ acc.current_fg.g ∨
      cell.fg.b ≠ acc.current_fg.b ∨ cell.bg.r ≠ acc.current_bg.r ∨
      cell.bg.g ≠ acc.current_bg.g ∨ cell.bg.b ≠ acc.current_bg.b
    let acc :=
      if colorsChanged ∧ acc.current_segment_text ≠ "" then
        { acc with
          line_segments := acc.line_segments ++
            [{ text := acc.current_segment_text, fg_color := acc.current_fg,
               bg_color := acc.current_bg, line := acc.current_line,
               start_col := acc.segment_start_col,
               end_col := acc.segment_start_col + acc.current_segment_text.length }],
          segment_start_col := acc.segment_start_col + acc.current_segment_text.length,
          current_segment_text := "", current_fg := cell.fg, current_bg := cell.bg }
      else acc
    { acc with current_segment_text := acc.current_segment_text.push cell.ch }

/-- `TerminalSession::extract_colored_terminal_content` (terminal/mod.rs
lines 303-445), restricted to the segment list it produces from the cell
stream of `grid.display_iter()`. -/
def extractColoredSegments (cells : List RCell) : List ColoredTextSegment :=
  let init : ExtractAcc :=
    { segments := [], current_line := 0, line_segments := [],
      current_segment_text := "", current_fg := themeForeground,
      current_bg := themeBackground, segment_start_col := 0 }
  let acc := cells.foldl extractStep init
  -- final segment flush (lines 403-415)
  let lineSegs :=
    if acc.current_segment_text ≠ "" then
      acc.line_segments ++
        [{ text := acc.current_segment_text, fg_color := acc.current_fg,
           bg_color := acc.current_bg, line := acc.current_line,
           start_col := acc.segment_start_col,
           end_col := acc.segment_start_col + acc.current_segment_text.length }]
    else acc.line_segments
  acc.segments ++ lineSegs

/-! # Helper lemmas -/

theorem hexDigitVal_toHexDigit {n : Nat} (h : n < 16) :
    hexDigitVal (toHexDigit n) = some n := by
  unfold toHexDigit hexDigitVal
  split_ifs <;> first | exact congrArg some (by omega) | omega

theorem toHexDigit_ge_48 (n : Nat) : 48 ≤ toHexDigit n := by
  unfold toHexDigit; split_ifs <;> omega

theorem fromStrRadix16U8_toHexByte {v : Nat} (h : v < 256) :
    fromStrRadix16U8 (toHexByte v) = some v := by
  have h1 : v / 16 < 16 := by omega
  have h2 : v % 16 < 16 := by omega
  have g1 := toHexDigit_ge_48 (v / 16)
  have e1 := hexDigitVal_toHexDigit h1
  have e2 := hexDigitVal_toHexDigit h2
  simp only [toHexByte, fromStrRadix16U8, hexDigits, e1, e2]
  split_ifs <;> first | exact congrArg some (by omega) | omega

theorem findIdx?_some_bounds {α : Type} (p : α → Bool) :
    ∀ (l : List α) (i j : Nat), List.findIdx? p l i = some j → i ≤ j ∧ j < i + l.length := by
  intro l
  induction l with
  | nil => intro i j h; exact absurd h (by simp)
  | cons x xs ih =>
    intro i j h
    rw [List.findIdx?_cons] at h
    split at h
    · obtain rfl := Option.some.inj h
      simp only [List.length_cons]
      omega
    · have h2 := ih (i + 1) j h
      simp only [List.length_cons]
      omega

theorem findIdx?_beq_mem {ch : Char} :
    ∀ (l : List Char) (i j : Nat), List.findIdx? (fun c => c == ch) l i = some j → ch ∈ l := by
  intro l
  induction l with
  | nil => intro i j h; exact absurd h (by simp)
  | cons x xs ih =>
    intro i j h
    rw [List.findIdx?_cons] at h
    split at h
    · rename_i hx
      have : x = ch := by simpa using hx
      exact this ▸ List.mem_cons_self x xs
    · exact List.mem_cons_of_mem x (ih (i + 1) j h)

theorem chosungIndex_isConsonant {ch : Char} {ci : Nat}
    (h : getChosungIndex ch = some ci) : isConsonant ch = true := by
  have hm : ch ∈ consonantList := findIdx?_beq_mem consonantList 0 ci h
  exact List.elem_iff.2 hm

theorem chosungIndex_lt {ch : Char} {ci : Nat}
    (h : getChosungIndex ch = some ci) : ci < 19 := by
  have := (findIdx?_some_bounds (fun c => c == ch) chosungList 0 ci h).2
  simpa [chosungList, consonantList] using this

theorem jungsungIndex_isVowel {ch : Char} {ji : Nat}
    (h : getJungsungIndex ch = some ji) : isVowel ch = true := by
  have hm : ch ∈ vowelList := findIdx?_beq_mem vowelList 0 ji h
  exact List.elem_iff.2 hm

theorem jungsungIndex_lt {ch : Char} {ji : Nat}
    (h : getJungsungIndex ch = some ji) : ji < 21 := by
  have := (findIdx?_some_bounds (fun c => c == ch) jungsungList 0 ji h).2
  simpa [jungsungList, vowelList] using this

theorem jongsungIndex_lt {ch : Char} {ki : Nat}
    (h : getJongsungIndex ch = some ki) : ki < 28 := by
  have := (findIdx?_some_bounds (fun c => c == ch) jongsungList 0 ki h).2
  simpa [jongsungList] using this

theorem vowel_not_consonant : ∀ c ∈ vowelList, isConsonant c = false := by decide

theorem consonant_not_vowel : ∀ c ∈ consonantList, isVowel c = false := by decide

theorem consonant_jongsungIndex_ne_zero :
    ∀ c ∈ consonantList, getJongsungIndex c ≠ some 0 := by decide

theorem isVowel_not_consonant {ch : Char} (h : isVowel ch = true) :
    isConsonant ch = false :=
  vowel_not_consonant ch (List.elem_iff.1 h)

theorem isConsonant_not_vowel {ch : Char} (h : isConsonant ch = true) :
    isVowel ch = false :=
  consonant_not_vowel ch (List.elem_iff.1 h)

theorem combineVowels_facts {a b u : Char} (h : combineVowels a b = some u) :
    isVowel b = true ∧ isConsonant b = false := by
  unfold combineVowels at h
  split_ifs at h <;>
    (rename_i hab; obtain ⟨-, rfl⟩ := hab; exact ⟨by decide, by decide⟩)

set_option maxHeartbeats 1000000 in
theorem combineConsonants_facts {a b g : Char} (h : combineConsonants a b = some g) :
    getJongsungIndex g ≠ some 0 := by
  unfold combineConsonants at h
  split_ifs at h <;>
    (obtain rfl := Option.some.inj h; decide)

/-! ## Symbolic step lemmas for `process_korean_char`, on explicit states -/

theorem pkc_consonant_fresh {ch : Char} (hc : isConsonant ch = true)
    (jung jong : Option Char) (comp : Bool) :
    processKoreanChar ⟨none, jung, jong, comp⟩ ch =
      some ("", ⟨some ch, jung, jong, true⟩) := by
  simp [processKoreanChar, hc]

theorem pkc_consonant_to_final {ch c0 v0 : Char} (hc : isConsonant ch = true)
    (comp : Bool) :
    processKoreanChar ⟨some c0, some v0, none, comp⟩ ch =
      some ("", ⟨some c0, some v0, some ch, comp⟩) := by
  simp [processKoreanChar, hc]

theorem pkc_consonant_combine {ch c0 j0 g : Char} (hc : isConsonant ch = true)
    (jung : Option Char) (comp : Bool) (hcomb : combineConsonants j0 ch = some g) :
    processKoreanChar ⟨some c0, jung, some j0, comp⟩ ch =
      some ("", ⟨some c0, jung, some g, comp⟩) := by
  simp [processKoreanChar, hc, hcomb]

theorem pkc_vowel_to_medial {ch c0 : Char} (hv : isVowel ch = true)
    (hnc : isConsonant ch = false) (jong : Option Char) (comp : Bool) :
    processKoreanChar ⟨some c0, none, jong, comp⟩ ch =
      some ("", ⟨some c0, some ch, jong, comp⟩) := by
  simp [processKoreanChar, hnc, hv]

theorem pkc_vowel_combine {ch c0 v0 u : Char} (hv : isVowel ch = true)
    (hnc : isConsonant ch = false) (comp : Bool)
    (hcomb : combineVowels v0 ch = some u) :
    processKoreanChar ⟨some c0, some v0, none, comp⟩ ch =
      some ("", ⟨some c0, some u, none, comp⟩) := by
  simp [processKoreanChar, hnc, hv, hcomb]

theorem pkc_vowel_migrate {ch c0 v0 j0 : Char} {ci ji : Nat}
    (hv : isVowel ch = true) (hnc : isConsonant ch = false) (comp : Bool)
    (hci : getChosungIndex c0 = some ci) (hji : getJungsungIndex v0 = some ji) :
    processKoreanChar ⟨some c0, some v0, some j0, comp⟩ ch =
      some (String.singleton (composeKorean ci ji 0),
        ⟨some j0, some ch, none, true⟩) := by
  simp [processKoreanChar, KoreanInputState.new, hnc, hv, hci, hji]

theorem getCurrentChar_eq {c0 v0 : Char} {ci ji : Nat} (jong : Option Char)
    (comp : Bool) (hci : getChosungIndex c0 = some ci)
    (hji : getJungsungIndex v0 = some ji) :
    KoreanInputState.getCurrentChar ⟨some c0, some v0, jong, comp⟩ =
      some (composeKorean ci ji ((jong.bind getJongsungIndex).getD 0)) := by
  simp [KoreanInputState.getCurrentChar, hci, hji]

theorem composeKorean_toNat {ci ji ki : Nat} (hci : ci < 19) (hji : ji < 21)
    (hki : ki < 28) :
    (composeKorean ci ji ki).toNat = 0xAC00 + (ci * 21 + ji) * 28 + ki := by
  have hcode : 0xAC00 + (ci * 21 + ji) * 28 + ki < 0xD800 := by
    have h1 : ci * 21 + ji ≤ 398 := by omega
    have h2 : (ci * 21 + ji) * 28 ≤ 398 * 28 := Nat.mul_le_mul_right 28 h1
    omega
  unfold composeKorean charFromU32
  rw [if_pos (Or.inl hcode)]
  have hvalid : (0xAC00 + (ci * 21 + ji) * 28 + ki).isValidChar := Or.inl hcode
  simp only [Option.getD_some, Char.ofNat, dif_pos hvalid]
  simp [Char.ofNatAux, Char.toNat, UInt32.toNat, UInt32.ofNatCore]

/-! # Claim C10: Color hex round-trip -/

/-- Claim C10 counterexample.  The claim asserts (a) that
`from_hex(to_hex(c))` returns `c` for every 8-bit RGBA color, and (b)
that every input whose content after stripping a leading `#` is not
exactly 6 hex digits yields an error.  Both conjuncts fail on the code:
(a) `to_hex` prints only r, g, b, so the alpha channel 7 of
`⟨1,2,3,7⟩` comes back as 255; (b) the input `"##ff0000"` (bytes below)
still has a leading `#` after one `#` is stripped, yet `from_hex`
succeeds because `trim_start_matches('#')` strips every leading `#`. -/
theorem c10_counterexample :
    (Color.fromHex (Color.toHex ⟨1, 2, 3, 7⟩) = .ok ⟨1, 2, 3, 255⟩ ∧
      (⟨1, 2, 3, 255⟩ : Color) ≠ ⟨1, 2, 3, 7⟩) ∧
    Color.fromHex [35, 35, 102, 102, 48, 48, 48, 48] = .ok ⟨255, 0, 0, 255⟩ :=
  ⟨⟨rfl, by decide⟩, rfl⟩

/-- Claim C10, amended: `from_hex(to_hex(c))` succeeds and returns the
color with the same r, g, b channels and alpha forced to 255 (so it
returns `c` itself exactly when `c.a = 255`); and every input whose
content after stripping all leading `#` marks does not have byte length
exactly 6 produces an error (length-6 contents can also succeed on
non-hex-digit forms such as `"+f+f+f"`, accepted by
`u8::from_str_radix`). -/
theorem c10_hex_round_trip (c : Color) (input : List Nat)
    (hr : c.r < 256) (hg : c.g < 256) (hb : c.b < 256)
    (hlen : (input.dropWhile (fun b => b = 35)).length ≠ 6) :
    Color.fromHex (Color.toHex c) = .ok ⟨c.r, c.g, c.b, 255⟩ ∧
    Color.fromHex input = .error () := by
  constructor
  · have g1 := toHexDigit_ge_48 (c.r / 16)
    have er : fromStrRadix16U8 (toHexByte c.r) = some c.r := fromStrRadix16U8_toHexByte hr
    have eg : fromStrRadix16U8 (toHexByte c.g) = some c.g := fromStrRadix16U8_toHexByte hg
    have eb : fromStrRadix16U8 (toHexByte c.b) = some c.b := fromStrRadix16U8_toHexByte hb
    have hdrop : List.dropWhile (fun x => decide (x = 35))
        (35 :: (toHexByte c.r ++ toHexByte c.g ++ toHexByte c.b)) =
        toHexDigit (c.r / 16) :: toHexDigit (c.r % 16) :: toHexDigit (c.g / 16) ::
          toHexDigit (c.g % 16) :: toHexDigit (c.b / 16) :: toHexDigit (c.b % 16) :: [] := by
      rw [List.dropWhile_cons_of_pos (by simp)]
      simp only [toHexByte, List.cons_append, List.nil_append]
      exact List.dropWhile_cons_of_neg (by simp; omega)
    unfold Color.toHex Color.fromHex
    rw [hdrop]
    simp only [List.length_cons, List.length_nil]
    rw [if_neg (by omega)]
    unfold toHexByte at er eg eb
    show (match fromStrRadix16U8 [toHexDigit (c.r / 16), toHexDigit (c.r % 16)],
            fromStrRadix16U8 [toHexDigit (c.g / 16), toHexDigit (c.g % 16)],
            fromStrRadix16U8 [toHexDigit (c.b / 16), toHexDigit (c.b % 16)] with
          | some r, some g, some b => Except.ok (Color.rgb r g b)
          | _, _, _ => Except.error ()) = Except.ok ⟨c.r, c.g, c.b, 255⟩
    rw [er, eg, eb]
    rfl
  · unfold Color.fromHex
    rw [if_pos hlen]

/-- Witness for `c10_hex_round_trip` at `c = ⟨1,2,3,4⟩`, `input = []`. -/
theorem c10_hex_round_trip_witness :
    Color.fromHex (Color.toHex ⟨1, 2, 3, 4⟩) = .ok ⟨1, 2, 3, 255⟩ ∧
    Color.fromHex [] = .error () :=
  c10_hex_round_trip ⟨1, 2, 3, 4⟩ [] (by decide) (by decide) (by decide) (by decide)

/-! # Claim C8: segment merging by resolved color -/

/-- Claim C8 (code bug).  Two adjacent non-spacer cells on line 0 with the
identical resolved pair (fg = red `(205,0,0)`, bg = the theme background)
are not merged: the extraction loop never updates `current_fg`/`current_bg`
when a color change is seen while the current segment text is empty, so
the very first cell of the grid is recorded under the theme default
colors, and the color comparison at the second cell then splits the run.
The code emits two segments, the first carrying fg `(255,255,255)` which
is not the resolved color of the cell it covers. -/
theorem c8_first_segment_bug :
    extractColoredSegments
        [⟨0, 'A', false, ⟨205, 0, 0, 255⟩, ⟨30, 30, 30, 255⟩⟩,
         ⟨0, 'B', false, ⟨205, 0, 0, 255⟩, ⟨30, 30, 30, 255⟩⟩] =
      [⟨"A", ⟨255, 255, 255, 255⟩, ⟨30, 30, 30, 255⟩, 0, 0, 1⟩,
       ⟨"B", ⟨205, 0, 0, 255⟩, ⟨30, 30, 30, 255⟩, 0, 1, 2⟩] ∧
    (⟨255, 255, 255, 255⟩ : Color) ≠ ⟨205, 0, 0, 255⟩ := by
  decide

/-! # Claim C7: async and sync content-update paths agree -/

/-- Claim C7: for every session map, session id, event and
`from_utf8_lossy` decoding, the synchronous best-effort path performs
exactly the same update (same append-and-trim rule, same notification,
same panic) as the asynchronous path whenever its `try_lock`
acquisitions succeed; and when the content lock is contended, the
synchronous path leaves the session map unchanged and emits no
notification. -/
theorem c7_sync_matches_async (lossy : List Nat → List Nat)
    (sessions : List (Nat × SessionBuf)) (id : Nat) (ev : PtyEvent)
    (data : List Nat) (rl : Bool) :
    processPtyEventSync lossy true true sessions id ev =
      processPtyEvent lossy sessions id ev ∧
    processPtyEventSync lossy false rl sessions id (.ptyWrite data) =
      some (sessions, none) := by
  constructor
  · cases ev <;>
      simp only [processPtyEventSync, processPtyEvent] <;>
      cases lookupSession sessions id <;> simp
  · simp only [processPtyEventSync]
    cases lookupSession sessions id <;> simp

/-! # Claim C6: backspace consumption -/

/-- Claim C6: on any composition state satisfying the data-model
invariant, if the state is composing then `handle_backspace` reports the
key consumed and exactly one occupied slot is cleared, in
final-then-medial-then-initial priority (clearing the initial yields the
idle state); if the state is idle the key is not consumed and the state
is unchanged. -/
theorem c6_backspace (s : KoreanInputState) (h : Inv s) :
    (s.is_composing = true →
      (imeHandleBackspace s).2 = true ∧
      occupiedSlots (imeHandleBackspace s).1 + 1 = occupiedSlots s ∧
      (s.jongsung.isSome → (imeHandleBackspace s).1 = { s with jongsung := none }) ∧
      (s.jongsung = none → s.jungsung.isSome →
        (imeHandleBackspace s).1 = { s with jungsung := none }) ∧
      (s.jongsung = none → s.jungsung = none →
        (imeHandleBackspace s).1 = KoreanInputState.new)) ∧
    (s.is_composing = false → imeHandleBackspace s = (s, false)) := by
  obtain ⟨cho, jung, jong, comp⟩ := s
  obtain ⟨h1, h2, h3⟩ := h
  cases cho <;> cases jung <;> cases jong <;> cases comp <;>
    simp_all [imeHandleBackspace, KoreanInputState.handleBackspace,
      occupiedSlots, KoreanInputState.new]

/-- Witness for `c6_backspace` at the composing state holding `ㄱ`,`ㅏ`. -/
theorem c6_backspace_witness :
    ((⟨some 'ㄱ', some 'ㅏ', none, true⟩ : KoreanInputState).is_composing = true →
      (imeHandleBackspace ⟨some 'ㄱ', some 'ㅏ', none, true⟩).2 = true ∧
      occupiedSlots (imeHandleBackspace ⟨some 'ㄱ', some 'ㅏ', none, true⟩).1 + 1 =
        occupiedSlots ⟨some 'ㄱ', some 'ㅏ', none, true⟩ ∧
      ((⟨some 'ㄱ', some 'ㅏ', none, true⟩ : KoreanInputState).jongsung.isSome →
        (imeHandleBackspace ⟨some 'ㄱ', some 'ㅏ', none, true⟩).1 =
          { (⟨some 'ㄱ', some 'ㅏ', none, true⟩ : KoreanInputState) with jongsung := none }) ∧
      ((⟨some 'ㄱ', some 'ㅏ', none, true⟩ : KoreanInputState).jongsung = none →
        (⟨some 'ㄱ', some 'ㅏ', none, true⟩ : KoreanInputState).jungsung.isSome →
        (imeHandleBackspace ⟨some 'ㄱ', some 'ㅏ', none, true⟩).1 =
          { (⟨some 'ㄱ', some 'ㅏ', none, true⟩ : KoreanInputState) with jungsung := none }) ∧
      ((⟨some 'ㄱ', some 'ㅏ', none, true⟩ : KoreanInputState).jongsung = none →
        (⟨some 'ㄱ', some 'ㅏ', none, true⟩ : KoreanInputState).jungsung = none →
        (imeHandleBackspace ⟨some 'ㄱ', some 'ㅏ', none, true⟩).1 = KoreanInputState.new)) ∧
    ((⟨some 'ㄱ', some 'ㅏ', none, true⟩ : KoreanInputState).is_composing = false →
      imeHandleBackspace ⟨some 'ㄱ', some 'ㅏ', none, true⟩ =
        (⟨some 'ㄱ', some 'ㅏ', none, true⟩, false)) :=
  c6_backspace ⟨some 'ㄱ', some 'ㅏ', none, true⟩ (by decide)

/-! # Claim C5: the slot invariant is preserved by all operations -/

theorem inv_new : Inv KoreanInputState.new := by decide

theorem processKoreanChar_inv {s : KoreanInputState} {ch : Char} {out : String}
    {s' : KoreanInputState} (h : Inv s)
    (hp : processKoreanChar s ch = some (out, s')) : Inv s' := by
  obtain ⟨cho, jung, jong, comp⟩ := s
  obtain ⟨h1, h2, h3⟩ := h
  simp only [Option.isSome] at h1 h2 h3
  unfold processKoreanChar at hp
  cases cho <;> cases jung <;> cases jong <;>
    (repeat' split at hp) <;>
    simp_all only [Option.some.injEq, Prod.mk.injEq, reduceCtorEq] <;>
    (try obtain ⟨-, rfl⟩ := hp) <;>
    simp_all [Inv, KoreanInputState.new]

theorem processInputChar_inv {s : KoreanInputState} {ch : Char} {out : String}
    {s' : KoreanInputState} (h : Inv s)
    (hp : processInputChar s ch = some (out, s')) : Inv s' := by
  unfold processInputChar at hp
  split at hp
  · split at hp
    · simp only [Option.some.injEq, Prod.mk.injEq] at hp
      obtain ⟨-, rfl⟩ := hp
      exact inv_new
    · simp only [Option.some.injEq, Prod.mk.injEq] at hp
      obtain ⟨-, rfl⟩ := hp
      exact h
  · split at hp
    · exact processKoreanChar_inv h hp
    · split at hp
      · simp only [Option.some.injEq, Prod.mk.injEq] at hp
        obtain ⟨-, rfl⟩ := hp
        exact inv_new
      · simp only [Option.some.injEq, Prod.mk.injEq] at hp
        obtain ⟨-, rfl⟩ := hp
        exact h

theorem processInputChars_inv {l : List Char} {s : KoreanInputState} {out : String}
    {s' : KoreanInputState} (h : Inv s)
    (hp : processInputChars s l = some (out, s')) : Inv s' := by
  induction l generalizing s out with
  | nil =>
    unfold processInputChars at hp
    obtain ⟨-, rfl⟩ := Option.some.inj hp
    exact h
  | cons ch rest ih =>
    unfold processInputChars at hp
    split at hp
    · exact absurd hp (by simp)
    · split at hp
      · exact absurd hp (by simp)
      · obtain ⟨-, rfl⟩ := Option.some.inj hp
        rename_i o1 s1 heq1 o2 s2 heq2
        exact ih (processInputChar_inv h heq1) heq2

theorem processInput_inv {s : KoreanInputState} {l : List Char} {out : String}
    {comp : Bool} {prev : Option Char} {s' : KoreanInputState} (h : Inv s)
    (hp : processInput s l = some (out, comp, prev, s')) : Inv s' := by
  unfold processInput at hp
  split at hp
  · simp only [Option.some.injEq, Prod.mk.injEq] at hp
    obtain ⟨-, -, -, rfl⟩ := hp
    split
    · exact inv_new
    · exact h
  · split at hp
    · exact absurd hp (by simp)
    · simp only [Option.some.injEq, Prod.mk.injEq] at hp
      obtain ⟨-, -, -, rfl⟩ := hp
      rename_i o1 s1 heq1
      exact processInputChars_inv h heq1

theorem handleBackspace_inv {s : KoreanInputState} (h : Inv s) :
    Inv s.handleBackspace := by
  obtain ⟨cho, jung, jong, comp⟩ := s
  obtain ⟨h1, h2, h3⟩ := h
  cases cho <;> cases jung <;> cases jong <;> cases comp <;>
    simp_all [KoreanInputState.handleBackspace, Inv]

/-- Claim C5: every composition state reachable through any sequence of
`process_input`, `handle_backspace`, `finalize_composition` and `reset`
calls satisfies the data-model invariant: a final consonant only with a
medial vowel, a medial vowel only with an initial consonant, and the
composing flag set exactly when the initial slot is occupied. -/
theorem c5_reachable_invariant (s : KoreanInputState) (h : Reachable s) : Inv s := by
  induction h with
  | init => exact inv_new
  | input s l out comp prev s' _ hp ih => exact processInput_inv ih hp
  | backspace s _ ih =>
    unfold imeHandleBackspace
    split
    · exact handleBackspace_inv ih
    · exact ih
  | finalize s _ ih =>
    unfold finalizeComposition
    split
    · exact inv_new
    · exact ih
  | reset s _ _ => exact inv_new

/-- Witness for `c5_reachable_invariant`: the state reached after typing
`ㄱ` from a fresh session satisfies the invariant. -/
theorem c5_reachable_invariant_witness : Inv ⟨some 'ㄱ', none, none, true⟩ :=
  c5_reachable_invariant ⟨some 'ㄱ', none, none, true⟩
    (Reachable.input KoreanInputState.new ['ㄱ'] "" true (some 'ㄱ')
      ⟨some 'ㄱ', none, none, true⟩ Reachable.init (by decide))

/-! # Claim C4: scrollback trimming -/

theorem findNewline_lt {l : List Nat} {n : Nat} (h : findNewline l = some n) :
    n < l.length := by
  induction l generalizing n with
  | nil => exact absurd h (by simp [findNewline])
  | cons b rest ih =>
    unfold findNewline at h
    split at h
    · obtain rfl := Option.some.inj h
      simp
    · obtain ⟨m, hm, rfl⟩ := Option.map_eq_some'.1 h
      have := ih hm
      simp only [List.length_cons]
      omega

theorem findNewline_get {l : List Nat} {n : Nat} (h : findNewline l = some n) :
    l[n]? = some 10 := by
  induction l generalizing n with
  | nil => exact absurd h (by simp [findNewline])
  | cons b rest ih =>
    unfold findNewline at h
    split at h
    · obtain rfl := Option.some.inj h
      rename_i hb
      rw [List.getElem?_cons_zero, hb]
    · obtain ⟨m, hm, rfl⟩ := Option.map_eq_some'.1 h
      rw [List.getElem?_cons_succ]
      exact ih hm

theorem findNewline_replicate {x : Nat} (hx : x ≠ 10) (n : Nat) :
    findNewline (List.replicate n x) = none := by
  induction n with
  | zero => rfl
  | succ m ih =>
    rw [List.replicate_succ]
    unfold findNewline
    rw [if_neg hx, ih]
    rfl

theorem findNewline_replicate_ten {n : Nat} (h : n ≠ 0) :
    findNewline (List.replicate n 10) = some 0 := by
  obtain ⟨m, rfl⟩ := Nat.exists_eq_succ_of_ne_zero h
  rw [List.replicate_succ]
  unfold findNewline
  rw [if_pos rfl]

theorem findNewline_replicate_append {x : Nat} (hx : x ≠ 10) (n : Nat) (l : List Nat) :
    findNewline (List.replicate n x ++ l) = (findNewline l).map (· + n) := by
  induction n with
  | zero =>
    rw [List.replicate_zero, List.nil_append]
    cases findNewline l <;> simp
  | succ m ih =>
    rw [List.replicate_succ, List.cons_append]
    show (if x = 10 then some 0
          else (findNewline (List.replicate m x ++ l)).map (· + 1)) =
        (findNewline l).map (· + (m + 1))
    rw [if_neg hx, ih]
    cases findNewline l
    · rfl
    · simp only [Option.map_some']
      exact congrArg some (by omega)

theorem drop_replicate_append (n i x : Nat) (l : List Nat) :
    (List.replicate n x ++ l).drop (n + i) = l.drop i := by
  have h1 : (List.replicate n x ++ l).drop ((List.replicate n x).length + i) = l.drop i :=
    List.drop_append i
  rwa [List.length_replicate] at h1

theorem maxLineLenAux_replicate_append {x : Nat} (hx : x ≠ 10) (n : Nat)
    (l : List Nat) (cur : Nat) :
    maxLineLenAux (List.replicate n x ++ l) cur = maxLineLenAux l (cur + n) := by
  induction n generalizing cur with
  | zero => simp [List.replicate_zero, List.nil_append]
  | succ m ih =>
    rw [List.replicate_succ, List.cons_append]
    show (if x = 10 then max cur (maxLineLenAux (List.replicate m x ++ l) 0)
          else maxLineLenAux (List.replicate m x ++ l) (cur + 1)) =
        maxLineLenAux l (cur + (m + 1))
    rw [if_neg hx, ih]
    rw [show cur + 1 + m = cur + (m + 1) from by omega]

theorem maxLineLenAux_replicate {x : Nat} (hx : x ≠ 10) (n cur : Nat) :
    maxLineLenAux (List.replicate n x) cur = cur + n := by
  have h := maxLineLenAux_replicate_append hx n [] cur
  rw [List.append_nil] at h
  exact h

theorem maxLineLenAux_cons_ten (l : List Nat) (cur : Nat) :
    maxLineLenAux (10 :: l) cur = max cur (maxLineLenAux l 0) := rfl

theorem maxLineLen_def (buf : List Nat) : maxLineLen buf = maxLineLenAux buf 0 := rfl

theorem isCharBoundary_of_byte {buf : List Nat} {i b : Nat} (h : buf[i]? = some b)
    (hb : b < 128 ∨ 192 ≤ b) : isCharBoundary buf i = true := by
  unfold isCharBoundary
  split_ifs with h0
  · rfl
  · rw [h]
    show (decide (b < 128) || decide (192 ≤ b)) = true
    rcases hb with hb | hb <;> simp [hb]

theorem isCharBoundary_continuation {buf : List Nat} {i b : Nat} (h0 : i ≠ 0)
    (h : buf[i]? = some b) (h1 : 128 ≤ b) (h2 : b < 192) :
    isCharBoundary buf i = false := by
  unfold isCharBoundary
  rw [if_neg h0, h]
  show (decide (b < 128) || decide (192 ≤ b)) = false
  simp only [Bool.or_eq_false_iff, decide_eq_false_iff_not]
  omega

theorem trimContent_over (buf : List Nat) (h : buf.length > 50000)
    (hcb : isCharBoundary buf (buf.length - 40000) = true) :
    trimContent buf =
      match findNewline (buf.drop (buf.length - 40000)) with
      | some newlinePos => some (buf.drop (buf.length - 40000 + newlinePos + 1))
      | none => some buf := by
  unfold trimContent
  rw [if_pos h, if_pos hcb]

theorem trimContent_mid_char (buf : List Nat) (h : buf.length > 50000)
    (hcb : isCharBoundary buf (buf.length - 40000) = false) :
    trimContent buf = none := by
  unfold trimContent
  rw [if_pos h, hcb, if_neg Bool.false_ne_true]

/-- Claim C4 counterexample.  Both consequents of the claim fail on the
code, because no trimming happens at all when the trailing 40000 bytes of
an oversized buffer contain no newline.  All drop points below fall on
ASCII bytes, so the updates complete without the char-boundary panic:
(a) after appending 100000 newline-free bytes and then a newline followed
by 50000 more bytes, the buffer holds 150001 bytes although its longest
line is 100000 bytes — it exceeds the 50000-byte high-water mark by more
than one line's worth of bytes (and grows without bound);
(b) a trim also does not leave the buffer ending on a line boundary: after
one oversized append whose newline sits at the drop point, the trimmed
buffer ends with byte 98, not a newline. -/
theorem c4_counterexample :
    updateContent [] (List.replicate 100000 120) = some (List.replicate 100000 120) ∧
    updateContent (List.replicate 100000 120) (10 :: List.replicate 50000 98) =
      some (List.replicate 100000 120 ++ 10 :: List.replicate 50000 98) ∧
    (List.replicate 100000 (120 : Nat) ++ 10 :: List.replicate 50000 98).length = 150001 ∧
    50000 + maxLineLen (List.replicate 100000 120 ++ 10 :: List.replicate 50000 98)
        = 150000 ∧
    updateContent [] (List.replicate 10001 120 ++ 10 :: List.replicate 39999 98) =
      some (List.replicate 39999 98) ∧
    (List.replicate 39999 (98 : Nat)).getLast? = some 98 ∧ (98 : Nat) ≠ 10 := by
  have hx : (120 : Nat) ≠ 10 := by omega
  have hb1 : updateContent [] (List.replicate 100000 120) =
      some (List.replicate 100000 120) := by
    have hg : (List.replicate 100000 (120 : Nat))[60000]? = some 120 := by
      rw [List.getElem?_replicate, if_pos (by omega)]
    have hcb : isCharBoundary (List.replicate 100000 (120 : Nat)) 60000 = true :=
      isCharBoundary_of_byte hg (Or.inl (by omega))
    unfold updateContent trimContent
    rw [List.nil_append, List.length_replicate]
    rw [if_pos (by omega)]
    rw [show (100000 : Nat) - 40000 = 60000 from by norm_num]
    rw [if_pos hcb]
    rw [List.drop_replicate]
    rw [show (100000 : Nat) - 60000 = 40000 from by norm_num]
    rw [findNewline_replicate hx]
  have hb2 : updateContent (List.replicate 100000 120) (10 :: List.replicate 50000 98) =
      some (List.replicate 100000 120 ++ 10 :: List.replicate 50000 98) := by
    have hg : (List.replicate 100000 (120 : Nat) ++
        10 :: List.replicate 50000 98)[100000 + 10001]? = some 98 := by
      rw [List.getElem?_append_right (by rw [List.length_replicate]; omega)]
      rw [List.length_replicate]
      rw [show (100000 : Nat) + 10001 - 100000 = 10000 + 1 from by norm_num]
      rw [List.getElem?_cons_succ]
      rw [List.getElem?_replicate, if_pos (by omega)]
    have hcb : isCharBoundary (List.replicate 100000 (120 : Nat) ++
        10 :: List.replicate 50000 98) (100000 + 10001) = true :=
      isCharBoundary_of_byte hg (Or.inl (by omega))
    unfold updateContent trimContent
    rw [List.length_append, List.length_replicate, List.length_cons, List.length_replicate]
    rw [if_pos (by omega)]
    rw [show (100000 : Nat) + (50000 + 1) - 40000 = 100000 + 10001 from by norm_num]
    rw [if_pos hcb]
    rw [drop_replicate_append]
    rw [show (10001 : Nat) = 10000 + 1 from by norm_num]
    rw [List.drop_succ_cons, List.drop_replicate]
    rw [show (50000 : Nat) - 10000 = 40000 from by norm_num]
    rw [findNewline_replicate (by omega)]
  have hb3 : updateContent [] (List.replicate 10001 120 ++ 10 :: List.replicate 39999 98) =
      some (List.replicate 39999 98) := by
    have hg : (List.replicate 10001 (120 : Nat) ++
        10 :: List.replicate 39999 98)[10001 + 0]? = some 10 := by
      rw [List.getElem?_append_right (by rw [List.length_replicate])]
      rw [List.length_replicate]
      rw [show (10001 : Nat) + 0 - 10001 = 0 from by norm_num]
      rw [List.getElem?_cons_zero]
    have hcb : isCharBoundary (List.replicate 10001 (120 : Nat) ++
        10 :: List.replicate 39999 98) (10001 + 0) = true :=
      isCharBoundary_of_byte hg (Or.inl (by omega))
    unfold updateContent trimContent
    rw [List.nil_append, List.length_append, List.length_replicate, List.length_cons,
      List.length_replicate]
    rw [if_pos (by omega)]
    rw [show (10001 : Nat) + (39999 + 1) - 40000 = 10001 + 0 from by norm_num]
    rw [if_pos hcb]
    rw [drop_replicate_append]
    rw [List.drop_zero]
    rw [show findNewline (10 :: List.replicate 39999 98) = some 0 from by
      unfold findNewline; rw [if_pos rfl]]
    show some (List.drop (10001 + 0 + 0 + 1)
        (List.replicate 10001 120 ++ 10 :: List.replicate 39999 98)) =
      some (List.replicate 39999 98)
    rw [show (10001 : Nat) + 0 + 0 + 1 = 10001 + 1 from by norm_num]
    rw [drop_replicate_append, List.drop_succ_cons, List.drop_zero]
  refine ⟨hb1, hb2, ?_, ?_, hb3, ?_, by omega⟩
  · rw [List.length_append, List.length_cons, List.length_replicate,
      List.length_replicate]
  · rw [maxLineLen_def, maxLineLenAux_replicate_append hx, maxLineLenAux_cons_ten,
      maxLineLenAux_replicate (by omega)]
    omega
  · rw [List.getLast?_replicate]
    rw [if_neg (by omega)]

/-- Claim C4, amended: a content update appends the new bytes and then, when
the buffer exceeds 50000 bytes, slices it at length − 40000.  If that split
point is not a UTF-8 character boundary the program panics (`none` here).
Otherwise it trims only when a newline occurs in the trailing 40000 bytes;
in that case the front is dropped through the first such newline (the byte
just before the kept part is a newline, so the kept part starts at a line
beginning) and at most 39999 bytes remain.  When the oversized buffer has
no newline in its trailing 40000 bytes it is left untrimmed, so the buffer
can exceed the high-water mark without bound, and a trimmed buffer need not
end with a newline. -/
theorem c4_trim_behavior (buf text : List Nat) :
    ((buf ++ text).length ≤ 50000 → updateContent buf text = some (buf ++ text)) ∧
    ((buf ++ text).length > 50000 →
      (isCharBoundary (buf ++ text) ((buf ++ text).length - 40000) = false →
        updateContent buf text = none) ∧
      (isCharBoundary (buf ++ text) ((buf ++ text).length - 40000) = true →
        (findNewline ((buf ++ text).drop ((buf ++ text).length - 40000)) = none →
          updateContent buf text = some (buf ++ text)) ∧
        (∀ n, findNewline ((buf ++ text).drop ((buf ++ text).length - 40000)) = some n →
          updateContent buf text =
            some ((buf ++ text).drop ((buf ++ text).length - 40000 + n + 1)) ∧
          ((buf ++ text).drop ((buf ++ text).length - 40000 + n + 1)).length ≤ 39999 ∧
          (buf ++ text)[(buf ++ text).length - 40000 + n]? = some 10))) := by
  constructor
  · intro hle
    unfold updateContent trimContent
    rw [if_neg (by omega)]
  · intro hgt
    constructor
    · intro hcb
      exact trimContent_mid_char (buf ++ text) hgt hcb
    · intro hcb
      constructor
      · intro hnone
        unfold updateContent
        rw [trimContent_over (buf ++ text) hgt hcb, hnone]
      · intro n hsome
        have hlen : n < 40000 := by
          have h1 := findNewline_lt hsome
          rw [List.length_drop] at h1
          omega
        have heq : updateContent buf text =
            some ((buf ++ text).drop ((buf ++ text).length - 40000 + n + 1)) := by
          unfold updateContent
          rw [trimContent_over (buf ++ text) hgt hcb, hsome]
        refine ⟨heq, ?_, ?_⟩
        · rw [List.length_drop]
          omega
        · have h2 := findNewline_get hsome
          rwa [List.getElem?_drop] at h2

/-- Witness for `c4_trim_behavior`.  First, on a 50001-byte all-newline
buffer the split point is an ASCII boundary and the trim drops 10002 bytes
and leaves 39999.  Second, on a 50001-byte buffer whose split point falls
on the middle byte of the three-byte UTF-8 encoding 234/176/128 of U+AC00,
the update panics (`none`). -/
theorem c4_trim_behavior_witness :
    (updateContent [] (List.replicate 50001 10) =
      some ((([] : List Nat) ++ List.replicate 50001 10).drop
        ((([] : List Nat) ++ List.replicate 50001 10).length - 40000 + 0 + 1)) ∧
      ((([] : List Nat) ++ List.replicate 50001 10).drop
        ((([] : List Nat) ++
          List.replicate 50001 10).length - 40000 + 0 + 1)).length ≤ 39999 ∧
      (([] : List Nat) ++
          List.replicate 50001 10)[(([] : List Nat) ++
          List.replicate 50001 10).length - 40000 + 0]? = some 10) ∧
    updateContent []
        (List.replicate 9999 120 ++ 234 :: 176 :: 128 :: List.replicate 39999 10) =
      none := by
  constructor
  · exact (((c4_trim_behavior [] (List.replicate 50001 10)).2
      (by rw [List.nil_append, List.length_replicate]; omega)).2
      (by rw [List.nil_append, List.length_replicate]
          rw [show (50001 : Nat) - 40000 = 10001 from by norm_num]
          have hg : (List.replicate 50001 (10 : Nat))[10001]? = some 10 := by
            rw [List.getElem?_replicate, if_pos (by omega)]
          exact isCharBoundary_of_byte hg (Or.inl (by omega)))).2 0
      (by rw [List.nil_append, List.length_replicate]
          rw [show (50001 : Nat) - 40000 = 10001 from by norm_num]
          rw [List.drop_replicate]
          exact findNewline_replicate_ten (by norm_num))
  · exact ((c4_trim_behavior []
      (List.replicate 9999 120 ++ 234 :: 176 :: 128 :: List.replicate 39999 10)).2
      (by rw [List.nil_append, List.length_append, List.length_replicate,
            List.length_cons, List.length_cons, List.length_cons, List.length_replicate]
          omega)).1
      (by rw [List.nil_append, List.length_append, List.length_replicate,
            List.length_cons, List.length_cons, List.length_cons, List.length_replicate]
          rw [show (9999 : Nat) + (39999 + 1 + 1 + 1) - 40000 = 10001 from by norm_num]
          have hg : (List.replicate 9999 (120 : Nat) ++
              234 :: 176 :: 128 :: List.replicate 39999 10)[10001]? = some 128 := by
            rw [List.getElem?_append_right (by rw [List.length_replicate]; omega)]
            rw [List.length_replicate]
            rw [show (10001 : Nat) - 9999 = 2 from by norm_num]
            rw [List.getElem?_cons_succ, List.getElem?_cons_succ, List.getElem?_cons_zero]
          exact isCharBoundary_continuation (by omega) hg (by omega) (by omega))

/-! # Claim C1: valid syllables compose by the standard Hangul formula -/

theorem string_empty_append (s : String) : "" ++ s = s := by simp

theorem string_append_empty (s : String) : s ++ "" = s := by simp

theorem runJamo_nil (s : KoreanInputState) : runJamo s [] = some ("", s) := rfl

theorem runJamo_cons {s : KoreanInputState} {ch : Char} {o : String}
    {s' : KoreanInputState} (h1 : processKoreanChar s ch = some (o, s'))
    {l : List Char} {o2 : String} {s2 : KoreanInputState}
    (h2 : runJamo s' l = some (o2, s2)) :
    runJamo s (ch :: l) = some (o ++ o2, s2) := by
  simp only [runJamo, h1, h2]

theorem stepwise_nil (s : KoreanInputState) : stepwiseComposing s [] = true := rfl

theorem stepwise_cons {s : KoreanInputState} {ch : Char} {o : String}
    {s' : KoreanInputState} (h1 : processKoreanChar s ch = some (o, s'))
    (l : List Char) :
    stepwiseComposing s (ch :: l) =
      (o == "" && s'.is_composing && stepwiseComposing s' l) := by
  simp only [stepwiseComposing, h1]

theorem runJamo_append :
    ∀ (l1 l2 : List Char) (s : KoreanInputState) {o1 : String} {s1 : KoreanInputState},
    runJamo s l1 = some (o1, s1) →
    runJamo s (l1 ++ l2) = (runJamo s1 l2).map (fun p => (o1 ++ p.1, p.2)) := by
  intro l1
  induction l1 with
  | nil =>
    intro l2 s o1 s1 h
    rw [runJamo_nil] at h
    simp only [Option.some.injEq, Prod.mk.injEq] at h
    obtain ⟨h1, h2⟩ := h
    subst h1; subst h2
    rw [List.nil_append]
    cases runJamo s l2 with
    | none => rfl
    | some p => simp [string_empty_append]
  | cons ch rest ih =>
    intro l2 s o1 s1 h
    rw [List.cons_append]
    unfold runJamo at h
    split at h
    · exact absurd h (by simp)
    · rename_i out s' heq
      split at h
      · exact absurd h (by simp)
      · rename_i o2 s2 heq2
        simp only [Option.some.injEq, Prod.mk.injEq] at h
        obtain ⟨h1, h2⟩ := h
        subst h2; subst h1
        simp only [runJamo, heq]
        rw [ih l2 s' heq2]
        cases runJamo s2 l2 with
        | none => rfl
        | some p => simp [String.append_assoc]

theorem stepwise_append :
    ∀ (l1 l2 : List Char) (s : KoreanInputState) {o1 : String} {s1 : KoreanInputState},
    runJamo s l1 = some (o1, s1) →
    stepwiseComposing s (l1 ++ l2) =
      (stepwiseComposing s l1 && stepwiseComposing s1 l2) := by
  intro l1
  induction l1 with
  | nil =>
    intro l2 s o1 s1 h
    rw [runJamo_nil] at h
    simp only [Option.some.injEq, Prod.mk.injEq] at h
    obtain ⟨-, h2⟩ := h
    subst h2
    rw [List.nil_append, stepwise_nil, Bool.true_and]
  | cons ch rest ih =>
    intro l2 s o1 s1 h
    rw [List.cons_append]
    unfold runJamo at h
    split at h
    · exact absurd h (by simp)
    · rename_i out s' heq
      split at h
      · exact absurd h (by simp)
      · rename_i o2 s2 heq2
        simp only [Option.some.injEq, Prod.mk.injEq] at h
        obtain ⟨-, h2⟩ := h
        subst h2
        rw [stepwise_cons heq, stepwise_cons heq, ih l2 s' heq2]
        simp [Bool.and_assoc]

theorem runJamo_snoc {l : List Char} {s s1 : KoreanInputState}
    (h : runJamo s l = some ("", s1)) {f : Char} {s2 : KoreanInputState}
    (hf : processKoreanChar s1 f = some ("", s2)) :
    runJamo s (l ++ [f]) = some ("", s2) := by
  rw [runJamo_append l [f] s h, runJamo_cons hf (runJamo_nil s2)]
  simp

theorem stepwise_snoc {l : List Char} {s s1 : KoreanInputState}
    (h : runJamo s l = some ("", s1)) (hst : stepwiseComposing s l = true)
    {f : Char} {s2 : KoreanInputState}
    (hf : processKoreanChar s1 f = some ("", s2)) (hcomp : s2.is_composing = true) :
    stepwiseComposing s (l ++ [f]) = true := by
  rw [stepwise_append l [f] s h, hst, stepwise_cons hf, stepwise_nil, hcomp]
  rfl

/-- The composition state reached by running a valid-syllable jamo
sequence from the fresh state: nothing has been committed, the engine is
composing, the initial and medial slots hold jamo with the sequence's
indices, and the final slot is empty exactly when the final index is 0
(otherwise it holds a jamo with that jongsung index). -/
theorem syllableSeq_run {l : List Char} {ci ji ki : Nat} (h : SyllableSeq l ci ji ki) :
    ∃ c v jopt, runJamo KoreanInputState.new l = some ("", ⟨some c, some v, jopt, true⟩) ∧
      stepwiseComposing KoreanInputState.new l = true ∧
      getChosungIndex c = some ci ∧ getJungsungIndex v = some ji ∧
      ((ki = 0 ∧ jopt = none) ∨
        (ki ≠ 0 ∧ ∃ j, jopt = some j ∧ getJongsungIndex j = some ki)) := by
  induction h with
  | cv c v ci ji hc hv =>
    have hcc := chosungIndex_isConsonant hc
    have hvv := jungsungIndex_isVowel hv
    have hvnc := isVowel_not_consonant hvv
    have e1 : processKoreanChar KoreanInputState.new c =
        some ("", ⟨some c, none, none, true⟩) := pkc_consonant_fresh hcc none none false
    have e2 : processKoreanChar ⟨some c, none, none, true⟩ v =
        some ("", ⟨some c, some v, none, true⟩) := pkc_vowel_to_medial hvv hvnc none true
    refine ⟨c, v, none, ?_, ?_, hc, hv, Or.inl ⟨rfl, rfl⟩⟩
    · exact runJamo_cons e1 (runJamo_cons e2 (runJamo_nil _))
    · rw [stepwise_cons e1, stepwise_cons e2]
      rfl
  | cvv c v w u ci jv ji hc hv hw hu =>
    have hcc := chosungIndex_isConsonant hc
    have hvv := jungsungIndex_isVowel hv
    have hvnc := isVowel_not_consonant hvv
    obtain ⟨hwv, hwnc⟩ := combineVowels_facts hw
    have e1 : processKoreanChar KoreanInputState.new c =
        some ("", ⟨some c, none, none, true⟩) := pkc_consonant_fresh hcc none none false
    have e2 : processKoreanChar ⟨some c, none, none, true⟩ v =
        some ("", ⟨some c, some v, none, true⟩) := pkc_vowel_to_medial hvv hvnc none true
    have e3 : processKoreanChar ⟨some c, some v, none, true⟩ w =
        some ("", ⟨some c, some u, none, true⟩) := pkc_vowel_combine hwv hwnc true hw
    refine ⟨c, u, none, ?_, ?_, hc, hu, Or.inl ⟨rfl, rfl⟩⟩
    · exact runJamo_cons e1 (runJamo_cons e2 (runJamo_cons e3 (runJamo_nil _)))
    · rw [stepwise_cons e1, stepwise_cons e2, stepwise_cons e3]
      rfl
  | addFinal l ci ji f ki h hf hk ih =>
    obtain ⟨c, v, jopt, hrun, hstep, hc, hv, hdisj⟩ := ih
    have hjnone : jopt = none := by
      rcases hdisj with ⟨-, h2⟩ | ⟨hne, -⟩
      · exact h2
      · exact absurd rfl hne
    subst hjnone
    have e : processKoreanChar ⟨some c, some v, none, true⟩ f =
        some ("", ⟨some c, some v, some f, true⟩) := pkc_consonant_to_final hf true
    have hki : ki ≠ 0 := by
      intro h0
      subst h0
      exact consonant_jongsungIndex_ne_zero f (List.elem_iff.1 hf) hk
    exact ⟨c, v, some f, runJamo_snoc hrun e, stepwise_snoc hrun hstep e rfl,
      hc, hv, Or.inr ⟨hki, f, rfl, hk⟩⟩
  | addCompoundFinal l ci ji f f2 g ki h hf hf2 hcomb hk ih =>
    obtain ⟨c, v, jopt, hrun, hstep, hc, hv, hdisj⟩ := ih
    have hjnone : jopt = none := by
      rcases hdisj with ⟨-, h2⟩ | ⟨hne, -⟩
      · exact h2
      · exact absurd rfl hne
    subst hjnone
    have e1 : processKoreanChar ⟨some c, some v, none, true⟩ f =
        some ("", ⟨some c, some v, some f, true⟩) := pkc_consonant_to_final hf true
    have e2 : processKoreanChar ⟨some c, some v, some f, true⟩ f2 =
        some ("", ⟨some c, some v, some g, true⟩) :=
      pkc_consonant_combine hf2 (some v) true hcomb
    have hki : ki ≠ 0 := by
      intro h0
      subst h0
      exact combineConsonants_facts hcomb hk
    have hrun2 : runJamo KoreanInputState.new (l ++ [f, f2]) =
        some ("", ⟨some c, some v, some g, true⟩) := by
      rw [show l ++ [f, f2] = (l ++ [f]) ++ [f2] from by simp]
      exact runJamo_snoc (runJamo_snoc hrun e1) e2
    have hstep2 : stepwiseComposing KoreanInputState.new (l ++ [f, f2]) = true := by
      rw [show l ++ [f, f2] = (l ++ [f]) ++ [f2] from by simp]
      exact stepwise_snoc (runJamo_snoc hrun e1)
        (stepwise_snoc hrun hstep e1 rfl) e2 rfl
    exact ⟨c, v, some g, hrun2, hstep2, hc, hv, Or.inr ⟨hki, g, rfl, hk⟩⟩

/-- The per-character force-commit of `process_input` (korean_ime.rs
lines 160-199): a non-jamo, non-arrow character while composing commits
the bare initial when the medial slot is empty and `get_current_char`
otherwise, resets the state, and forwards the character unless it is
`\r` or `\n` (the four forwarding branches of the source all push the
character). -/
theorem processInputChar_interrupt {ch : Char} (hna : isMacArrow ch = false)
    (hnj : isKoreanJamo ch = false) {s : KoreanInputState}
    (hcomp : s.is_composing = true) :
    processInputChar s ch =
      some ((if s.chosung.isSome && s.jungsung.isNone then pushOpt s.chosung
             else pushOpt s.getCurrentChar) ++
            (if ch = '\r' ∨ ch = '\n' then "" else String.singleton ch),
        KoreanInputState.new) := by
  unfold processInputChar
  rw [hna, if_neg Bool.false_ne_true, hnj, if_neg Bool.false_ne_true, if_pos hcomp]
  simp only []
  split_ifs <;> rfl

theorem processInput_single_interrupt {ch : Char} (hna : isMacArrow ch = false)
    (hnj : isKoreanJamo ch = false) {s : KoreanInputState}
    (hcomp : s.is_composing = true) :
    processInput s [ch] =
      some ((if s.chosung.isSome && s.jungsung.isNone then pushOpt s.chosung
             else pushOpt s.getCurrentChar) ++
            (if ch = '\r' ∨ ch = '\n' then "" else String.singleton ch),
        false, none, KoreanInputState.new) := by
  have e := processInputChar_interrupt hna hnj hcomp
  unfold processInput
  rw [if_neg (by rw [List.take_of_length_le (by simp)]; simp)]
  simp only [processInputChars, e, string_append_empty]
  rfl

/-- `process_input` on one jamo character is exactly one
`process_korean_char` step (plus the composing flag and preview of the
new state). -/
theorem processInput_single_jamo {ch : Char} (hj : isKoreanJamo ch = true)
    (hna : isMacArrow ch = false) (s : KoreanInputState) :
    processInput s [ch] = (processKoreanChar s ch).map
      (fun p => (p.1, p.2.is_composing,
        (if p.2.is_composing = true then p.2.getDisplayChar else none), p.2)) := by
  unfold processInput
  rw [if_neg (by rw [List.take_of_length_le (by simp)]; simp)]
  cases e : processKoreanChar s ch with
  | none => simp [processInputChars, processInputChar, hna, hj, e]
  | some p =>
    obtain ⟨o, s'⟩ := p
    simp [processInputChars, processInputChar, hna, hj, e, string_append_empty]

theorem vowel_not_arrow : ∀ c ∈ vowelList, isMacArrow c = false := by decide

theorem consonant_not_arrow : ∀ c ∈ consonantList, isMacArrow c = false := by decide

theorem isConsonant_jamo_facts {ch : Char} (h : isConsonant ch = true) :
    isKoreanJamo ch = true ∧ isMacArrow ch = false :=
  ⟨by simp [isKoreanJamo, h], consonant_not_arrow ch (List.elem_iff.1 h)⟩

theorem isVowel_jamo_facts {ch : Char} (h : isVowel ch = true) :
    isKoreanJamo ch = true ∧ isMacArrow ch = false :=
  ⟨by simp [isKoreanJamo, h], vowel_not_arrow ch (List.elem_iff.1 h)⟩

/-- Every character of a valid-syllable jamo sequence is a jamo and not a
macOS arrow codepoint. -/
theorem syllableSeq_all_jamo {l : List Char} {ci ji ki : Nat}
    (h : SyllableSeq l ci ji ki) :
    ∀ ch ∈ l, isKoreanJamo ch = true ∧ isMacArrow ch = false := by
  induction h with
  | cv c v ci ji hc hv =>
    intro ch hch
    rcases List.mem_cons.1 hch with rfl | hch2
    · exact isConsonant_jamo_facts (chosungIndex_isConsonant hc)
    · rcases List.mem_cons.1 hch2 with rfl | hch3
      · exact isVowel_jamo_facts (jungsungIndex_isVowel hv)
      · exact absurd hch3 (List.not_mem_nil ch)
  | cvv c v w u ci jv ji hc hv hw hu =>
    intro ch hch
    rcases List.mem_cons.1 hch with rfl | hch2
    · exact isConsonant_jamo_facts (chosungIndex_isConsonant hc)
    · rcases List.mem_cons.1 hch2 with rfl | hch3
      · exact isVowel_jamo_facts (jungsungIndex_isVowel hv)
      · rcases List.mem_cons.1 hch3 with rfl | hch4
        · exact isVowel_jamo_facts (combineVowels_facts hw).1
        · exact absurd hch4 (List.not_mem_nil ch)
  | addFinal l ci ji f ki hss hf hk ih =>
    intro ch hch
    rcases List.mem_append.1 hch with hch2 | hch2
    · exact ih ch hch2
    · rcases List.mem_cons.1 hch2 with rfl | hch3
      · exact isConsonant_jamo_facts hf
      · exact absurd hch3 (List.not_mem_nil ch)
  | addCompoundFinal l ci ji f f2 g ki hss hf hf2 hcomb hk ih =>
    intro ch hch
    rcases List.mem_append.1 hch with hch2 | hch2
    · exact ih ch hch2
    · rcases List.mem_cons.1 hch2 with rfl | hch3
      · exact isConsonant_jamo_facts hf
      · rcases List.mem_cons.1 hch3 with rfl | hch4
        · exact isConsonant_jamo_facts hf2
        · exact absurd hch4 (List.not_mem_nil ch)

/-- Feeding one character at a time through `process_input` agrees with
the raw `process_korean_char` run on jamo-only sequences. -/
theorem runImeSteps_eq_runJamo :
    ∀ (l : List Char),
    (∀ ch ∈ l, isKoreanJamo ch = true ∧ isMacArrow ch = false) →
    ∀ s, runImeSteps s l = runJamo s l := by
  intro l
  induction l with
  | nil => intro _ s; rfl
  | cons ch rest ih =>
    intro hall s
    have hch := hall ch (List.mem_cons_self ch rest)
    have hrest : ∀ x ∈ rest, isKoreanJamo x = true ∧ isMacArrow x = false :=
      fun x hx => hall x (List.mem_cons_of_mem ch hx)
    unfold runImeSteps runJamo
    rw [processInput_single_jamo hch.1 hch.2]
    cases e : processKoreanChar s ch with
    | none => rfl
    | some p =>
      obtain ⟨o, s'⟩ := p
      simp only [Option.map_some', ih hrest s']

theorem stepwiseStill_eq_stepwise :
    ∀ (l : List Char),
    (∀ ch ∈ l, isKoreanJamo ch = true ∧ isMacArrow ch = false) →
    ∀ s, stepwiseStillComposing s l = stepwiseComposing s l := by
  intro l
  induction l with
  | nil => intro _ s; rfl
  | cons ch rest ih =>
    intro hall s
    have hch := hall ch (List.mem_cons_self ch rest)
    have hrest : ∀ x ∈ rest, isKoreanJamo x = true ∧ isMacArrow x = false :=
      fun x hx => hall x (List.mem_cons_of_mem ch hx)
    unfold stepwiseStillComposing stepwiseComposing
    rw [processInput_single_jamo hch.1 hch.2]
    cases e : processKoreanChar s ch with
    | none => rfl
    | some p =>
      obtain ⟨o, s'⟩ := p
      simp only [Option.map_some', ih hrest s']

/-- Claim C1: every jamo sequence forming a valid Hangul syllable, fed
one character at a time from the fresh state, commits nothing and keeps
`still_composing` true at every step; when the interrupting character
`\n` then arrives, `process_input` commits exactly one character whose
codepoint is `0xAC00 + (initial_index*21 + medial_index)*28 +
final_index`. -/
theorem c1_valid_syllable_commit (l : List Char) (ci ji ki : Nat)
    (h : SyllableSeq l ci ji ki) :
    stepwiseStillComposing KoreanInputState.new l = true ∧
    ∃ s, runImeSteps KoreanInputState.new l = some ("", s) ∧ s.is_composing = true ∧
      processInput s ['\n'] =
        some (String.singleton (composeKorean ci ji ki), false, none,
          KoreanInputState.new) ∧
      (composeKorean ci ji ki).toNat = 0xAC00 + (ci * 21 + ji) * 28 + ki := by
  obtain ⟨c, v, jopt, hrun, hstep, hc, hv, hdisj⟩ := syllableSeq_run h
  have hall := syllableSeq_all_jamo h
  have hproc : processInput (⟨some c, some v, jopt, true⟩ : KoreanInputState) ['\n'] =
      some (String.singleton (composeKorean ci ji ki), false, none,
        KoreanInputState.new) := by
    rw [processInput_single_interrupt (by decide) (by decide) rfl,
      getCurrentChar_eq jopt true hc hv]
    rcases hdisj with ⟨rfl, rfl⟩ | ⟨-, j, rfl, hjk⟩
    · simp [pushOpt, string_append_empty]
    · simp [pushOpt, hjk, string_append_empty]
  have hki : ki < 28 := by
    rcases hdisj with ⟨rfl, -⟩ | ⟨-, j, -, hjk⟩
    · decide
    · exact jongsungIndex_lt hjk
  refine ⟨?_, ⟨some c, some v, jopt, true⟩, ?_, rfl, hproc,
    composeKorean_toNat (chosungIndex_lt hc) (jungsungIndex_lt hv) hki⟩
  · rw [stepwiseStill_eq_stepwise l hall]
    exact hstep
  · rw [runImeSteps_eq_runJamo l hall]
    exact hrun

/-- Witness for `c1_valid_syllable_commit` on the sequence ㄱ, ㅗ, ㅏ
(composing 과, indices 0/9/0). -/
theorem c1_valid_syllable_commit_witness :
    stepwiseStillComposing KoreanInputState.new ['ㄱ', 'ㅗ', 'ㅏ'] = true ∧
    ∃ s, runImeSteps KoreanInputState.new ['ㄱ', 'ㅗ', 'ㅏ'] = some ("", s) ∧
      s.is_composing = true ∧
      processInput s ['\n'] =
        some (String.singleton (composeKorean 0 9 0), false, none,
          KoreanInputState.new) ∧
      (composeKorean 0 9 0).toNat = 0xAC00 + (0 * 21 + 9) * 28 + 0 :=
  c1_valid_syllable_commit ['ㄱ', 'ㅗ', 'ㅏ'] 0 9 0
    (SyllableSeq.cvv 'ㄱ' 'ㅗ' 'ㅏ' 'ㅘ' 0 8 9 (by decide) (by decide) (by decide)
      (by decide))

/-! # Claim C3: vowel arriving with an occupied final slot -/

/-- Claim C3 counterexample.  On the reachable state whose initial slot
holds the compound jamo ㄳ (reached by typing ㄱㅏㄱㅅㅏ, whose final
consonant ㄳ migrated to the initial slot), a further consonant and vowel
panic: `get_chosung_index(state.chosung.unwrap()).unwrap()` (korean_ime.rs
line 279) has no index for ㄳ.  `process_input` panics (modelled `none`)
instead of committing and continuing to compose as the claim states. -/
theorem c3_counterexample :
    processInput ⟨some 'ㄳ', some 'ㅏ', some 'ㄱ', true⟩ ['ㅏ'] = none ∧
    processInput KoreanInputState.new ['ㄱ', 'ㅏ', 'ㄱ', 'ㅅ', 'ㅏ', 'ㄱ', 'ㅏ'] = none := by
  decide

/-- Claim C3, amended: for every composition state with all three slots
occupied whose initial slot holds a jamo with a chosung index and whose
medial holds a jamo with a jungsung index, an arriving vowel commits the
old syllable composed with final index 0, and composition continues with
new initial = the old final consonant and new medial = the incoming
vowel, with `still_composing` true.  When the initial slot holds a
compound jamo without a chosung index (reachable after a prior migration
of a compound final), the code panics instead. -/
theorem c3_vowel_migration (c0 v0 j0 w : Char) (ci ji : Nat)
    (hci : getChosungIndex c0 = some ci) (hji : getJungsungIndex v0 = some ji)
    (hw : isVowel w = true) :
    processInput ⟨some c0, some v0, some j0, true⟩ [w] =
      some (String.singleton (composeKorean ci ji 0), true,
        KoreanInputState.getDisplayChar ⟨some j0, some w, none, true⟩,
        ⟨some j0, some w, none, true⟩) := by
  have hnc := isVowel_not_consonant hw
  have hna : isMacArrow w = false := vowel_not_arrow w (List.elem_iff.1 hw)
  have hj : isKoreanJamo w = true := by simp [isKoreanJamo, hw]
  have e : processKoreanChar ⟨some c0, some v0, some j0, true⟩ w =
      some (String.singleton (composeKorean ci ji 0), ⟨some j0, some w, none, true⟩) :=
    pkc_vowel_migrate hw hnc true hci hji
  unfold processInput
  rw [if_neg (by rw [List.take_of_length_le (by simp)]; simp)]
  simp [processInputChars, processInputChar, hna, hj, e, string_append_empty]

/-- Witness for `c3_vowel_migration` at the state ㄱ+ㅏ+ㄱ and vowel ㅏ. -/
theorem c3_vowel_migration_witness :
    processInput ⟨some 'ㄱ', some 'ㅏ', some 'ㄱ', true⟩ ['ㅏ'] =
      some (String.singleton (composeKorean 0 0 0), true,
        KoreanInputState.getDisplayChar ⟨some 'ㄱ', some 'ㅏ', none, true⟩,
        ⟨some 'ㄱ', some 'ㅏ', none, true⟩) :=
  c3_vowel_migration 'ㄱ' 'ㅏ' 'ㄱ' 'ㅏ' 0 0 (by decide) (by decide) (by decide)

/-! # Claim C9: the preview character -/

/-- Claim C9 counterexample.  After typing ㄱㅏㄱㅅㅏ from a fresh state,
`process_input` reports `still_composing = true` with a medial slot
occupied, yet the preview (`current_composition`) is `None`: the initial
slot holds the compound jamo ㄳ, which has no chosung index, so
`get_display_char` falls through `get_current_char` to `None`.  The claim
says the preview is never absent while composing. -/
theorem c9_preview_counterexample :
    processInput KoreanInputState.new ['ㄱ', 'ㅏ', 'ㄱ', 'ㅅ', 'ㅏ'] =
      some ("가", true, none, ⟨some 'ㄳ', some 'ㅏ', none, true⟩) ∧
    (⟨some 'ㄳ', some 'ㅏ', none, true⟩ : KoreanInputState).jungsung.isSome = true := by
  decide

/-- Claim C9, amended: the preview returned by `process_input` is always
`get_display_char` of the final state while composing and absent
otherwise; while composing the initial slot is occupied and the preview
equals the bare initial consonant when no medial is occupied, and equals
`get_current_char` (the fully composed syllable, or `None` when the
initial slot holds a compound jamo after a final migration) when a medial
is occupied.  It is returned in a separate component from the committed
text, which alone is written to the terminal. -/
theorem c9_preview (s : KoreanInputState) (l : List Char) (out : String)
    (comp : Bool) (prev : Option Char) (s' : KoreanInputState) (h : Inv s)
    (hp : processInput s l = some (out, comp, prev, s')) :
    prev = (if comp = true then s'.getDisplayChar else none) ∧
    (comp = true → ∃ c, s'.chosung = some c ∧
      (s'.jungsung = none → prev = some c) ∧
      (s'.jungsung.isSome → prev = s'.getCurrentChar)) := by
  have hinv : Inv s' := processInput_inv h hp
  have hform : comp = s'.is_composing ∧
      prev = (if s'.is_composing = true then s'.getDisplayChar else none) := by
    unfold processInput at hp
    split at hp
    · simp only [Option.some.injEq, Prod.mk.injEq] at hp
      obtain ⟨-, h2, h3, h4⟩ := hp
      subst h4
      exact ⟨h2.symm, h3.symm⟩
    · split at hp
      · exact absurd hp (by simp)
      · simp only [Option.some.injEq, Prod.mk.injEq] at hp
        obtain ⟨-, h2, h3, h4⟩ := hp
        subst h4
        exact ⟨h2.symm, h3.symm⟩
  obtain ⟨hcomp, hprev⟩ := hform
  constructor
  · rw [hprev, hcomp]
  · intro hct
    have hcomposing : s'.is_composing = true := by rw [← hcomp]; exact hct
    obtain ⟨c, hc⟩ := Option.isSome_iff_exists.1 ((hinv.2.2).1 hcomposing)
    refine ⟨c, hc, ?_, ?_⟩
    · intro hjn
      rw [hprev, if_pos hcomposing]
      simp [KoreanInputState.getDisplayChar, hc, hjn]
    · intro hjs
      obtain ⟨v, hv⟩ := Option.isSome_iff_exists.1 hjs
      rw [hprev, if_pos hcomposing]
      simp [KoreanInputState.getDisplayChar, hc, hv]

/-- Witness for `c9_preview`: processing `ㄱ` from a fresh state returns
the bare consonant as the preview. -/
theorem c9_preview_witness :
    (some 'ㄱ' : Option Char) =
      (if true = true then
        KoreanInputState.getDisplayChar ⟨some 'ㄱ', none, none, true⟩ else none) ∧
    (true = true → ∃ c,
      (⟨some 'ㄱ', none, none, true⟩ : KoreanInputState).chosung = some c ∧
      ((⟨some 'ㄱ', none, none, true⟩ : KoreanInputState).jungsung = none →
        (some 'ㄱ' : Option Char) = some c) ∧
      ((⟨some 'ㄱ', none, none, true⟩ : KoreanInputState).jungsung.isSome →
        (some 'ㄱ' : Option Char) =
          KoreanInputState.getCurrentChar ⟨some 'ㄱ', none, none, true⟩)) :=
  c9_preview KoreanInputState.new ['ㄱ'] "" true (some 'ㄱ')
    ⟨some 'ㄱ', none, none, true⟩ (by decide) (by decide)

/-! # Claim C2: force-commit on interrupting input -/

/-- Claim C2 counterexample.  On the composing state holding only the
bare initial ㄱ, the ANSI escape sequence `ESC [ A` produces an empty
commit: the escape-sequence branch of `process_input` (korean_ime.rs
lines 102-122) commits `get_current_char()`, which is `None` for an
incomplete composition, so the bare initial is dropped — the claim says
the incomplete composition is surfaced literally, never dropped (and the
sequence is also swallowed, not forwarded). -/
theorem c2_escape_counterexample :
    processInput ⟨some 'ㄱ', none, none, true⟩ ['\x1b', '[', 'A'] =
      some ("", false, none, KoreanInputState.new) ∧
    ("" : String) ≠ String.singleton 'ㄱ' := by
  decide

/-- Claim C2, amended: on a composing state whose initial slot holds a
valid initial consonant (and whose medial, when occupied, is a valid
vowel): (a) a non-jamo, non-arrow character arriving through the
per-character path force-commits — the committed text is the fully
composed syllable when a medial slot is occupied and the bare initial
consonant otherwise — the state resets to idle, newline/Enter is
swallowed, and every other character (Escape, space, printables, control
bytes) is forwarded after the commit; (b) an ANSI escape sequence
(starting `ESC [`) commits only `get_current_char()` — a bare initial is
dropped — and the sequence itself is swallowed, not forwarded. -/
theorem c2_force_commit (s : KoreanInputState) (c : Char) (ci : Nat) (h : Inv s)
    (hc : s.chosung = some c) (hci : getChosungIndex c = some ci)
    (hjv : ∀ v, s.jungsung = some v → (getJungsungIndex v).isSome) :
    (∀ ch, isKoreanJamo ch = false → isMacArrow ch = false →
      ∃ commitText,
        processInput s [ch] =
          some (commitText ++ (if ch = '\r' ∨ ch = '\n' then "" else String.singleton ch),
            false, none, KoreanInputState.new) ∧
        ((s.jungsung.isSome ∧ ∃ syl, s.getCurrentChar = some syl ∧
            commitText = String.singleton syl) ∨
          (s.jungsung = none ∧ commitText = String.singleton c))) ∧
    (∀ rest, processInput s ('\x1b' :: '[' :: rest) =
      some (pushOpt s.getCurrentChar, false, none, KoreanInputState.new)) := by
  obtain ⟨cho, jung, jong, comp⟩ := s
  have hc' : cho = some c := hc
  subst hc'
  have hcomp : comp = true := (h.2.2).2 rfl
  subst hcomp
  constructor
  · intro ch hnj hna
    rw [processInput_single_interrupt hna hnj rfl]
    cases hj : jung with
    | none =>
      subst hj
      exact ⟨String.singleton c, rfl, Or.inr ⟨rfl, rfl⟩⟩
    | some v =>
      subst hj
      obtain ⟨ji, hji⟩ := Option.isSome_iff_exists.1 (hjv v rfl)
      have hcc := getCurrentChar_eq jong true hci hji
      refine ⟨pushOpt (KoreanInputState.getCurrentChar ⟨some c, some v, jong, true⟩),
        rfl, Or.inl ⟨rfl, ?_⟩⟩
      exact ⟨composeKorean ci ji ((jong.bind getJongsungIndex).getD 0), hcc,
        by rw [hcc]; rfl⟩
  · intro rest
    rfl

/-- Witness for `c2_force_commit` at the state ㄱ+ㅏ and interrupt `a`. -/
theorem c2_force_commit_witness :
    (∀ ch, isKoreanJamo ch = false → isMacArrow ch = false →
      ∃ commitText,
        processInput ⟨some 'ㄱ', some 'ㅏ', none, true⟩ [ch] =
          some (commitText ++ (if ch = '\r' ∨ ch = '\n' then "" else String.singleton ch),
            false, none, KoreanInputState.new) ∧
        (((⟨some 'ㄱ', some 'ㅏ', none, true⟩ : KoreanInputState).jungsung.isSome ∧
            ∃ syl, (⟨some 'ㄱ', some 'ㅏ', none, true⟩ :
                KoreanInputState).getCurrentChar = some syl ∧
              commitText = String.singleton syl) ∨
          ((⟨some 'ㄱ', some 'ㅏ', none, true⟩ : KoreanInputState).jungsung = none ∧
            commitText = String.singleton 'ㄱ'))) ∧
    (∀ rest, processInput ⟨some 'ㄱ', some 'ㅏ', none, true⟩ ('\x1b' :: '[' :: rest) =
      some (pushOpt (⟨some 'ㄱ', some 'ㅏ', none, true⟩ :
          KoreanInputState).getCurrentChar,
        false, none, KoreanInputState.new)) :=
  c2_force_commit ⟨some 'ㄱ', some 'ㅏ', none, true⟩ 'ㄱ' 0 (by decide) (by decide)
    (by decide) (by intro v hv; cases hv; decide)

end Sterm
